import Mathlib

/-!
Shallow embedding of the Job360 resume-tailoring core
(`src/agents/rewrite_tailor/rewrite_tailor_agent.py`,
`src/agents/job_understanding/jd_models.py`,
`src/agents/profile_parser/profile_models.py`,
`src/agents/profile_parser/tech_normalizer.py`), with proofs about the
specification claims of that core.

Python strings are modelled as Lean `String`s with ASCII case semantics;
the technology normalizer, which needs heavier character-level reasoning,
works on code-point lists (`List Nat`), i.e. on the sequences of code
points that Python strings are.  Importance scores and other Python floats
are modelled as rationals: every float operation this code performs
(multiplication by 1.5, comparisons of ratios of small integers) is exact
enough that float rounding cannot change any comparison the code makes.

The non-deterministic text-generation backend is modelled as an explicit
oracle (`Gen`): each generation call site is a field returning
`Option String`, where `none` models a raised exception and `some c` the
returned message content.  Theorems quantify over the oracle unless the
claim pins it down (e.g. the fully-failing backend).
-/

set_option linter.unusedVariables false
set_option maxRecDepth 8000

namespace Job360

/-! ### Python string primitives (`str.strip`, `str.lower`, `str.split`, `in`) -/

/-- Python whitespace for `str.strip` / `str.split()` (ASCII part):
space, tab, newline, carriage return, vertical tab, form feed. -/
def pyIsSpace (c : Char) : Bool :=
  decide (c.toNat = 32 ∨ c.toNat = 9 ∨ c.toNat = 10
    ∨ c.toNat = 13 ∨ c.toNat = 11 ∨ c.toNat = 12)

/-- Model of `str.strip()` on the character list. -/
def pyStripL (l : List Char) : List Char :=
  ((l.dropWhile pyIsSpace).reverse.dropWhile pyIsSpace).reverse

/-- Model of `str.strip()`. -/
def pyStrip (s : String) : String := ⟨pyStripL s.data⟩

/-- Model of `str.lower()` (ASCII case semantics). -/
def pyLowerL (l : List Char) : List Char := l.map Char.toLower

/-- Model of `str.lower()`. -/
def pyLower (s : String) : String := ⟨pyLowerL s.data⟩

/-- Does `l` begin with the segment `p`?  (Helper for Python's `in`.) -/
def leadsWith : List Char → List Char → Bool
  | [], _ => true
  | _ :: _, [] => false
  | p :: ps, c :: cs => p == c && leadsWith ps cs

/-- Model of Python's substring test `p in s` on character lists. -/
def containsL (p : List Char) : List Char → Bool
  | [] => leadsWith p []
  | c :: cs => leadsWith p (c :: cs) || containsL p cs

/-- Model of Python's substring test `p in s`. -/
def containsS (p s : String) : Bool := containsL p.data s.data

/-- Model of `s.startswith(p)`. -/
def pyStartsWith (p s : String) : Bool := leadsWith p.data s.data

/-- Worker for `str.split()` with no separator: split on whitespace runs. -/
def splitWsGo (acc : List Char) : List Char → List (List Char)
  | [] => if acc.isEmpty then [] else [acc.reverse]
  | c :: cs =>
    if pyIsSpace c then
      if acc.isEmpty then splitWsGo [] cs else acc.reverse :: splitWsGo [] cs
    else splitWsGo (c :: acc) cs

/-- Model of `str.split()` (whitespace runs, no empty fields). -/
def pySplitWs (s : String) : List String := (splitWsGo [] s.data).map String.mk

/-- Worker for `str.split("_")`: split at every underscore, keeping empties. -/
def splitUGo (acc : List Char) : List Char → List (List Char)
  | [] => [acc.reverse]
  | c :: cs => if c == '_' then acc.reverse :: splitUGo [] cs else splitUGo (c :: acc) cs

/-- Model of `s.split("_")`. -/
def pySplitU (s : String) : List String := (splitUGo [] s.data).map String.mk

/-- Truthiness of `Optional[str]`: `None` and `""` are falsy. -/
def pyTruthy : Option String → Bool
  | none => false
  | some s => s ≠ ""

/-- Decimal digit character (total; callers only use arguments < 10). -/
def digitChar : Nat → Char
  | 0 => '0' | 1 => '1' | 2 => '2' | 3 => '3' | 4 => '4'
  | 5 => '5' | 6 => '6' | 7 => '7' | 8 => '8' | _ => '9'

/-- Character list of Python's `str(n)` for a natural number. -/
def natReprL (n : Nat) : List Char :=
  if _h : n < 10 then [digitChar n]
  else natReprL (n / 10) ++ [digitChar (n % 10)]
decreasing_by exact Nat.div_lt_self (by omega) (by omega)

/-- Model of Python's `str(n)` for the non-negative ints used in f-strings. -/
def natRepr (n : Nat) : String := ⟨natReprL n⟩

/-- Numeric value of a decimal digit character. -/
def digitVal (c : Char) : Option Nat :=
  if '0' ≤ c ∧ c ≤ '9' then some (c.toNat - 48) else none

/-- Fold decimal digits into a number; `none` on a non-digit. -/
def parseDigitsGo (acc : Nat) : List Char → Option Nat
  | [] => some acc
  | c :: cs => match digitVal c with
    | some d => parseDigitsGo (acc * 10 + d) cs
    | none => none

/-- Parse a non-empty all-digit list (`none` models `ValueError`). -/
def parseDigitsNE (l : List Char) : Option Nat :=
  if l.isEmpty then none else parseDigitsGo 0 l

/-- Model of Python `int(s)` on a character list (optional sign, digits);
`none` models a raised `ValueError`. -/
def pyIntL : List Char → Option Int
  | [] => none
  | c :: cs =>
    if c == '-' then (parseDigitsNE cs).map (fun n => -(n : Int))
    else if c == '+' then (parseDigitsNE cs).map (fun n => (n : Int))
    else (parseDigitsNE (c :: cs)).map (fun n => (n : Int))

/-- Model of Python `int(s)`. -/
def pyInt (s : String) : Option Int := pyIntL s.data

/-- Resolve a Python list index (negative indices count from the end);
`none` models a raised `IndexError`. -/
def pyIdx (len : Nat) (i : Int) : Option Nat :=
  if 0 ≤ i then (if i < (len : Int) then some i.toNat else none)
  else (if 0 ≤ (len : Int) + i then some ((len : Int) + i).toNat else none)

/-! ### Data model (`profile_models.py`, `jd_models.py`, `edit_plan.py`) -/

/-- Loosely-typed record (Python `Dict[str, Any]` whose values this code
only ever reads/writes as strings). -/
abbrev PyDict := List (String × String)

/-- Model of `dict.get(k)`. -/
def dictGet (d : PyDict) (k : String) : Option String :=
  (d.find? (fun kv => kv.1 == k)).map (·.2)

/-- Model of `d[k] = v` on a Python dict (overwrite in place, else append). -/
def dictSet (d : PyDict) (k : String) (v : String) : PyDict :=
  if d.any (fun kv => kv.1 == k) then
    d.map (fun kv => if kv.1 == k then (k, v) else kv)
  else d ++ [(k, v)]

/-- Skill categories (`SkillCategory`). -/
inductive SkillCat where
  | programming_language | framework | library | tool | database
  | cloud | devops | ml_ai | other
deriving DecidableEq, Repr

/-- Work experience entry (`Experience`). -/
structure Experience where
  title : String
  company : String
  location : Option String := none
  start_date : Option String := none
  end_date : Option String := none
  is_current : Bool := false
  description : Option String := none
  bullets : List String := []
  technologies : List String := []
  achievements : List String := []
  duration_months : Option Int := none
deriving DecidableEq

/-- Education entry (`Education`). -/
structure Education where
  degree : String
  field_of_study : Option String := none
  institution : String
  location : Option String := none
  graduation_date : Option String := none
  gpa : Option ℚ := none
  honors : List String := []
  relevant_coursework : List String := []
deriving DecidableEq

/-- Skill entry (`Skill`). -/
structure Skill where
  name : String
  normalized_name : Option String := none
  category : Option SkillCat := none
  proficiency : Option String := none
  years_of_experience : Option ℚ := none
  last_used : Option String := none
deriving DecidableEq

/-- Project entry (`Project`). -/
structure Project where
  name : String
  description : Option String := none
  start_date : Option String := none
  end_date : Option String := none
  technologies : List String := []
  bullets : List String := []
  url : Option String := none
  role : Option String := none
deriving DecidableEq

/-- Generic section (`Section`), e.g. "Leadership". -/
structure OtherSection where
  name : String
  items : List PyDict := []
deriving DecidableEq

/-- Complete parsed resume profile (`Profile`). -/
structure Profile where
  name : Option String := none
  email : Option String := none
  phone : Option String := none
  location : Option String := none
  linkedin : Option String := none
  github : Option String := none
  website : Option String := none
  summary : Option String := none
  experiences : List Experience := []
  education : List Education := []
  skills : List Skill := []
  projects : List Project := []
  certifications : List PyDict := []
  awards : List PyDict := []
  publications : List PyDict := []
  languages : List PyDict := []
  other_sections : List OtherSection := []
  raw_text : Option String := none
  parsing_metadata : PyDict := []
deriving DecidableEq

/-- Skill requirement from a job description (`SkillRequirement`). -/
structure SkillRequirement where
  skill : String
  is_required : Bool := true
  importance : ℚ
  mentioned_count : Nat := 0
  context : List String := []
deriving DecidableEq

/-- Job responsibility (`Responsibility`). -/
structure Responsibility where
  description : String
  keywords : List String := []
  importance : ℚ
deriving DecidableEq

/-- Structured job description (`JobDescription`). -/
structure JobDescription where
  title : Option String := none
  company : Option String := none
  location : Option String := none
  required_skills : List SkillRequirement := []
  preferred_skills : List SkillRequirement := []
  all_skills : List String := []
  ats_keywords : List String := []
  technical_keywords : List String := []
  soft_skills : List String := []
  responsibilities : List Responsibility := []
  experience_years : Option Int := none
  education_requirements : List String := []
  emphasis_areas : List String := []
  priorities : List (String × ℚ) := []
  raw_text : Option String := none
deriving DecidableEq

/-- Edit action kinds (`EditActionType`). -/
inductive EditActionType where
  | rewrite_bullet | add_keyword | remove_item | reorder
  | emphasize | deemphasize | add_section
deriving DecidableEq, Repr

/-- A single edit action (`EditAction`). -/
structure EditAction where
  action_type : EditActionType
  target : String
  description : String
  old_value : Option String := none
  new_value : Option String := none
  reason : String
  priority : ℚ := 7/10
deriving DecidableEq

/-- Plan for editing the resume (`EditPlan`). -/
structure EditPlan where
  actions : List EditAction := []
  summary : String
  keywords_to_add : List String := []
  keywords_to_emphasize : List String := []
  sections_to_prioritize : List String := []
  estimated_ats_score_improvement : ℚ := 1/5
deriving DecidableEq

/-! ### JobDescription methods (`jd_models.py`) -/

/-- Stable ascending insertion for strings: a later-coming element is
placed after every element it does not strictly precede, which is the
placement Python's stable `sorted` gives it. -/
def insertAscStr (x : String) : List String → List String
  | [] => [x]
  | y :: ys => if decide (x < y) then x :: y :: ys else y :: insertAscStr x ys

/-- Model of Python's stable `sorted` on strings. -/
def pySortedStr (l : List String) : List String :=
  l.foldl (fun acc x => insertAscStr x acc) []

/-- Model of `sorted(list(set(xs)))`: distinct elements in ascending
lexicographic string order. -/
def pySortedUnique (l : List String) : List String :=
  pySortedStr l.dedup

/-- Stable descending insertion by a rational weight: a later-coming
element is placed after every element of weight not below its own, which
is the placement Python's stable `list.sort(key=…, reverse=True)` gives
it. -/
def insertDescBy {α : Type} (w : α → ℚ) (x : α) : List α → List α
  | [] => [x]
  | y :: ys => if w y < w x then x :: y :: ys else y :: insertDescBy w x ys

/-- Model of Python's stable `list.sort(key=…, reverse=True)` (stable
descending sort by key). -/
def pyStableSortDesc {α : Type} (w : α → ℚ) (l : List α) : List α :=
  l.foldl (fun acc x => insertDescBy w x acc) []

/-- `JobDescription.get_all_keywords`. -/
def getAllKeywords (jd : JobDescription) : List String :=
  pySortedUnique (jd.ats_keywords ++ jd.technical_keywords
    ++ jd.required_skills.map (·.skill) ++ jd.preferred_skills.map (·.skill))

/-- The weighted skill list built inside `get_priority_skills`: required
skills at importance × 1.5, then preferred skills at plain importance, in
source order. -/
def weightedSkills (jd : JobDescription) : List (String × ℚ) :=
  jd.required_skills.map (fun s => (s.skill, s.importance * 1.5))
    ++ jd.preferred_skills.map (fun s => (s.skill, s.importance))

/-- The sort `all_skills.sort(key=lambda x: x[1], reverse=True)`:
Python's sort is stable, and `reverse=True` sorts descending by key. -/
def prioritySorted (jd : JobDescription) : List (String × ℚ) :=
  pyStableSortDesc (·.2) (weightedSkills jd)

/-- `JobDescription.get_priority_skills`. -/
def getPrioritySkills (jd : JobDescription) (topN : Nat) : List String :=
  ((prioritySorted jd).take topN).map (·.1)

/-! ### Section identifier (`RewriteTailorAgent._identify_sections_to_edit`)

The source method takes the job description, company and role as extra
parameters but never reads them: the enumeration is a pure function of the
profile. -/

/-- Identifier `f"experience_{i}_bullet_{j}"`. -/
def expBulletId (i j : Nat) : String :=
  "experience_" ++ natRepr i ++ "_bullet_" ++ natRepr j

/-- Identifier `f"experience_{i}_bullets"`. -/
def expBulletsId (i : Nat) : String := "experience_" ++ natRepr i ++ "_bullets"

/-- Identifier `f"experience_{i}_technologies"`. -/
def expTechId (i : Nat) : String := "experience_" ++ natRepr i ++ "_technologies"

/-- Identifier `f"project_{i}"`. -/
def projId (i : Nat) : String := "project_" ++ natRepr i

/-- Identifier `f"project_{i}_bullet_{j}"`. -/
def projBulletId (i j : Nat) : String :=
  "project_" ++ natRepr i ++ "_bullet_" ++ natRepr j

/-- Identifier `f"other_section_{name}"`. -/
def otherSectionId (name : String) : String := "other_section_" ++ name

/-- The per-experience part of the enumeration loop, carried out with the
running `enumerate` index. -/
def expSectionIds : Nat → List Experience → List String
  | _, [] => []
  | i, e :: es =>
    (if e.bullets ≠ [] then
        expBulletsId i :: (List.range e.bullets.length).map (fun j => expBulletId i j)
      else [])
    ++ (if e.technologies ≠ [] then [expTechId i] else [])
    ++ expSectionIds (i + 1) es

/-- The per-project part of the enumeration loop. -/
def projSectionIds : Nat → List Project → List String
  | _, [] => []
  | i, pr :: ps =>
    (if pr.bullets ≠ [] ∨ pyTruthy pr.description then
        projId i ::
          (if pr.bullets ≠ [] then
            (List.range pr.bullets.length).map (fun j => projBulletId i j)
          else [])
      else [])
    ++ projSectionIds (i + 1) ps

/-- `RewriteTailorAgent._identify_sections_to_edit`. -/
def identifySections (p : Profile) : List String :=
  (if pyTruthy p.summary then ["summary"] else [])
  ++ (if p.experiences ≠ [] then "experiences" :: expSectionIds 0 p.experiences else [])
  ++ (if p.projects ≠ [] then "projects" :: projSectionIds 0 p.projects else [])
  ++ (if p.skills ≠ [] then ["skills"] else [])
  ++ (if p.certifications ≠ [] then ["certifications"] else [])
  ++ (if p.awards ≠ [] then ["awards"] else [])
  ++ (p.other_sections.filter (fun s => s.items ≠ [])).map (fun s => otherSectionId s.name)

/-! ### Keyword relevance (`RewriteTailorAgent._find_relevant_keywords`) -/

/-- One iteration of the matching `elif` chain: direct substring match, a
keyword word (longer than 3) occurring in the text, or a text word (longer
than 4) occurring in the keyword. -/
def kwMatches (textLower kwLower : String) : Bool :=
  containsS kwLower textLower
  || (pySplitWs kwLower).any (fun w => decide (3 < w.length) && containsS w textLower)
  || (pySplitWs textLower).any (fun w => decide (4 < w.length) && containsS w kwLower)

/-- `RewriteTailorAgent._find_relevant_keywords`: scan the first 15
keywords, return the first 5 matches, and `[]` when nothing matched. -/
def findRelevantKeywords (text : String) (keywords : List String) : List String :=
  let textLower := pyLower text
  let relevant := (keywords.take 15).filter (fun kw => kwMatches textLower (pyLower kw))
  if relevant = [] then [] else relevant.take 5

/-! ### The text-generation oracle

Each field models one `client.chat.completions.create` call site of the
agent: its arguments are the data the source interpolates into that site's
prompt, `none` models a raised exception, and `some c` the returned
message content. -/

structure Gen where
  /-- `_create_edit_plan`: the parsed plan, or `none` for an exception or
  JSON parse failure (both fall into the same `except` branch). -/
  planOut : Option EditPlan := none
  /-- second `_rewrite_summary` definition (the one that is in effect):
  summary, top-10 priority skills, top-5 emphasis areas, role, company. -/
  summaryJD : String → List String → List String → Option String → Option String → Option String := fun _ _ _ _ _ => none
  /-- `_rewrite_summary_for_role`: summary, company, role. -/
  summaryRole : String → Option String → Option String → Option String := fun _ _ _ => none
  /-- `_rewrite_project_description`: description, top-5 priority skills. -/
  projDesc : String → List String → Option String := fun _ _ => none
  /-- `_rewrite_bullet_async`: bullet, keywords (at most 5). -/
  bulletKw : String → List String → Option String := fun _ _ => none
  /-- `_improve_bullet_generally`: bullet. -/
  improve : String → Option String := fun _ => none
  /-- `_create_new_bullet_with_keywords_async`: experience, keywords. -/
  newBullet : Experience → List String → Option String := fun _ _ => none
  /-- `_rewrite_bullet_for_role`: bullet, role, role keywords. -/
  bulletRole : String → Option String → List String → Option String := fun _ _ _ => none

/-- The fully-unavailable backend: every generation call raises. -/
def failGen : Gen := {}

/-! ### Generation-backed helpers of the agent -/

/-- `RewriteTailorAgent._rewrite_bullet_async`: `None` when no keywords or
on exception, else the stripped content. -/
def rewriteBulletAsync (g : Gen) (bullet : String) (keywords : List String) : Option String :=
  if keywords = [] then none
  else (g.bulletKw bullet (keywords.take 5)).map pyStrip

/-- `RewriteTailorAgent._improve_bullet_generally`: the stripped content
if it differs case-insensitively from the input, else `None`. -/
def improveBulletGenerally (g : Gen) (bullet : String) : Option String :=
  match g.improve bullet with
  | some c =>
    let improved := pyStrip c
    if pyLower improved ≠ pyLower bullet then some improved else none
  | none => none

/-- Second `_rewrite_summary` definition (line 1001, which shadows the
first): returns the original summary on exception. -/
def rewriteSummaryJD (g : Gen) (summary : String) (jd : JobDescription)
    (role : Option String) : String :=
  match g.summaryJD summary (getPrioritySkills jd 10) (jd.emphasis_areas.take 5) role jd.company with
  | some c => pyStrip c
  | none => summary

/-- `RewriteTailorAgent._rewrite_summary_for_role`: returns the original
summary on exception. -/
def rewriteSummaryForRole (g : Gen) (summary : String)
    (company role : Option String) : String :=
  match g.summaryRole summary company role with
  | some c => pyStrip c
  | none => summary

/-- `RewriteTailorAgent._rewrite_project_description`: returns the
original description on exception. -/
def rewriteProjectDescription (g : Gen) (desc : String) (jd : JobDescription) : String :=
  match g.projDesc desc (getPrioritySkills jd 5) with
  | some c => pyStrip c
  | none => desc

/-- `RewriteTailorAgent._create_new_bullet_with_keywords_async`. -/
def createNewBullet (g : Gen) (exp : Experience) (keywords : List String) : Option String :=
  (g.newBullet exp (keywords.take 5)).map pyStrip

/-- `RewriteTailorAgent._rewrite_bullet_for_role`. -/
def rewriteBulletForRole (g : Gen) (bullet : String) (role : Option String)
    (keywords : List String) : Option String :=
  if ¬ pyTruthy role ∧ keywords = [] then none
  else (g.bulletRole bullet role keywords).map pyStrip

/-! ### Plan-driven edit actions (`_rewrite_bullet`, `_add_keyword`) -/

/-- Python `action.new_value or action.description`. -/
def pyOr (v : Option String) (d : String) : String :=
  match v with
  | some s => if s ≠ "" then s else d
  | none => d

/-- `RewriteTailorAgent._rewrite_bullet` (plan-driven).  `none` models an
exception escaping the method (bad `int()` parse or an index below
`-len`), which the caller's per-action `try` swallows. -/
def applyRewriteBullet (p : Profile) (a : EditAction) : Option Profile := do
  let parts := pySplitU a.target
  if parts.length ≥ 3 ∧ parts.get? 0 = some "experience" then
    let ei ← pyInt ((parts.get? 1).getD "")
    if ei < (p.experiences.length : Int) then
      let ri ← pyIdx p.experiences.length ei
      match p.experiences.get? ri with
      | none => none
      | some exp =>
        if parts.get? 2 = some "bullet" ∧ parts.length ≥ 4 then
          let bi ← pyInt ((parts.get? 3).getD "")
          if bi < (exp.bullets.length : Int) then
            let rbi ← pyIdx exp.bullets.length bi
            let newExp := { exp with bullets := exp.bullets.set rbi (pyOr a.new_value a.description) }
            pure { p with experiences := p.experiences.set ri newExp }
          else pure p
        else pure p
    else pure p
  else pure p

/-- `RewriteTailorAgent._add_keyword`: append the keyword to the first
experience's technology list. -/
def applyAddKeyword (p : Profile) (a : EditAction) : Profile :=
  let keyword := pyOr a.new_value a.description
  match p.experiences with
  | [] => p
  | e :: es => { p with experiences := { e with technologies := e.technologies ++ [keyword] } :: es }

/-- One iteration of the plan-application loop in `_apply_edits`:
emphasize/deemphasize are no-ops, the other action types have no dispatch
branch, and a raised exception leaves the profile as it was. -/
def applyAction (p : Profile) (a : EditAction) : Profile :=
  match a.action_type with
  | .rewrite_bullet => (applyRewriteBullet p a).getD p
  | .add_keyword => applyAddKeyword p a
  | _ => p

/-! ### Forced comprehensive pass (`_incorporate_jd_keywords_extensive`) -/

/-- The keyword list actually used for a bullet in the forced pass: the
relevance matches, or the top-5 priority keywords as unconditional
fallback. -/
def effectiveRelevantKeywords (bullet : String) (allKw priorityKw : List String) : List String :=
  let relevant := findRelevantKeywords bullet (allKw ++ priorityKw)
  if relevant = [] then priorityKw.take 5 else relevant

/-- Is this rewrite attempt result falsy or unchanged (first fallback
check: `not new_bullet or not new_bullet.strip() or
new_bullet.strip().lower() == original_bullet.strip().lower()`)? -/
def attemptBad1 (orig : String) : Option String → Bool
  | none => true
  | some s => pyStrip s == "" || pyLower (pyStrip s) == pyLower (pyStrip orig)

/-- Second fallback check (`not new_bullet or
new_bullet.strip().lower() == original_bullet.strip().lower()`). -/
def attemptBad2 (orig : String) : Option String → Bool
  | none => true
  | some s => pyLower (pyStrip s) == pyLower (pyStrip orig)

/-- The per-bullet body of the first experience loop in
`_incorporate_jd_keywords_extensive` (the job description is present in
this function, so the `if jd and relevant_keywords` branch collapses to a
test on the keywords). -/
def forceRewriteExpBullet (g : Gen) (allKw priorityKw : List String) (bullet : String) : String :=
  let relevant := effectiveRelevantKeywords bullet allKw priorityKw
  let nb1 := if relevant ≠ [] then rewriteBulletAsync g bullet relevant
             else improveBulletGenerally g bullet
  let nb2 := if attemptBad1 bullet nb1 then
               (if relevant ≠ [] then rewriteBulletAsync g bullet relevant else nb1)
             else nb1
  let nb3 := if attemptBad2 bullet nb2 then improveBulletGenerally g bullet else nb2
  match nb3 with
  | some s =>
    if s ≠ "" ∧ pyStrip s ≠ "" ∧ pyLower (pyStrip s) ≠ pyLower (pyStrip bullet) then s else bullet
  | none => bullet

/-- The per-bullet body of the project loop in
`_incorporate_jd_keywords_extensive`. -/
def forceRewriteProjBullet (g : Gen) (priorityKw : List String) (bullet : String) : String :=
  let relevant :=
    let r := findRelevantKeywords bullet priorityKw
    if r = [] then priorityKw.take 5 else r
  let nb := rewriteBulletAsync g bullet relevant
  let nb := if attemptBad2 bullet nb then improveBulletGenerally g bullet else nb
  match nb with
  | some s =>
    if s ≠ "" ∧ pyStrip s ≠ "" ∧ pyLower (pyStrip s) ≠ pyLower (pyStrip bullet) then s else bullet
  | none => bullet

/-- Second experience loop: append a new keyword bullet when there are
fewer than 5 bullets, then extend the technology list with up to 5
missing JD technical keywords (case-insensitive set difference). -/
def augmentExperience (g : Gen) (priorityKw jdTechKw : List String) (exp : Experience) : Experience :=
  let exp :=
    if exp.bullets ≠ [] ∧ exp.bullets.length < 5 ∧ priorityKw ≠ [] then
      match createNewBullet g exp (priorityKw.take 5) with
      | some nb => if nb ≠ "" then { exp with bullets := exp.bullets ++ [nb] } else exp
      | none => exp
    else exp
  let currentTechs := exp.technologies.map pyLower
  let missing := jdTechKw.filter (fun t => pyLower t ∉ currentTechs)
  if missing ≠ [] then { exp with technologies := exp.technologies ++ missing.take 5 } else exp

/-- Project technology augmentation: up to 3 missing JD technical
keywords. -/
def augmentProject (jdTechKw : List String) (proj : Project) : Project :=
  let currentTechs := proj.technologies.map pyLower
  let missing := jdTechKw.filter (fun t => pyLower t ∉ currentTechs)
  if missing ≠ [] then { proj with technologies := proj.technologies ++ missing.take 3 } else proj

/-- The JD required/preferred skill names missing from the given skill
list, case-insensitively, in JD order (shared by the skills block of
`_incorporate_jd_keywords_extensive` and `_update_skills_section`). -/
def missingSkillNames (jd : JobDescription) (skills : List Skill) : List String :=
  let current := skills.map (fun s => pyLower s.name)
  ((jd.required_skills ++ jd.preferred_skills).filter
    (fun s => pyLower s.skill ∉ current)).map (·.skill)

/-- `Skill(name=skill_name)` with all other fields defaulted. -/
def mkSkillNamed (name : String) : Skill := { name := name }

/-- The skills block shared by `_incorporate_jd_keywords_extensive` and
`_update_skills_section`: append up to 10 missing JD skills. -/
def addMissingSkills (jd : JobDescription) (skills : List Skill) : List Skill :=
  let missing := missingSkillNames jd skills
  if missing ≠ [] then skills ++ (missing.take 10).map mkSkillNamed else skills

/-- `RewriteTailorAgent._incorporate_jd_keywords_extensive`. -/
def incorporateJdKeywords (g : Gen) (jd : JobDescription) (keywordsToAdd : List String)
    (p : Profile) : Profile :=
  let allKw := getAllKeywords jd ++ keywordsToAdd
  let priorityKw := getPrioritySkills jd 20
  let exps := p.experiences.map (fun e =>
    { e with bullets := e.bullets.map (forceRewriteExpBullet g allKw priorityKw) })
  let exps := exps.map (augmentExperience g priorityKw jd.technical_keywords)
  let projs := p.projects.map (fun pr =>
    { pr with bullets := pr.bullets.map (forceRewriteProjBullet g priorityKw) })
  let projs := projs.map (augmentProject jd.technical_keywords)
  { p with experiences := exps, projects := projs,
           skills := addMissingSkills jd p.skills }

/-- `RewriteTailorAgent._update_skills_section` (its body is the same
skills block again). -/
def updateSkillsSection (jd : JobDescription) (p : Profile) : Profile :=
  { p with skills := addMissingSkills jd p.skills }

/-- `RewriteTailorAgent._incorporate_company_role_edits`. -/
def incorporateCompanyRoleEdits (g : Gen) (company role : Option String) (p : Profile) : Profile :=
  let roleKeywords :=
    if pyTruthy role then
      (pySplitWs (pyLower ((role).getD ""))).filter (fun w => decide (4 < w.length))
    else []
  let rewriteOne := fun (b : String) =>
    match rewriteBulletForRole g b role roleKeywords with
    | some nb => if nb ≠ "" then nb else b
    | none => b
  let exps := p.experiences.map (fun e => { e with bullets := e.bullets.map rewriteOne })
  let projs := p.projects.map (fun pr => { pr with bullets := pr.bullets.map rewriteOne })
  { p with experiences := exps, projects := projs }

/-- `RewriteTailorAgent._improve_bullets_generally` (experience bullets
only). -/
def improveBulletsGenerally (g : Gen) (p : Profile) : Profile :=
  { p with experiences := p.experiences.map (fun e =>
      { e with bullets := e.bullets.map (fun b =>
          match improveBulletGenerally g b with
          | some i => if i ≠ "" then i else b
          | none => b) }) }

/-- Step 3 of `_apply_edits`: project descriptions and bullets. -/
def step3Project (g : Gen) (jd : Option JobDescription) (proj : Project) : Project :=
  let proj :=
    if pyTruthy proj.description then
      match jd with
      | some j =>
        let nd := rewriteProjectDescription g (proj.description.getD "") j
        if nd ≠ "" then { proj with description := some nd } else proj
      | none => proj
    else proj
  { proj with bullets := proj.bullets.map (fun b =>
      let nb := match jd with
        | some j => rewriteBulletAsync g b (getPrioritySkills j 5)
        | none => improveBulletGenerally g b
      match nb with
      | some s => if s ≠ "" then s else b
      | none => b) }

/-- `RewriteTailorAgent._update_other_section` applied to one item. -/
def updateOtherItem (g : Gen) (priorityKw : List String) (item : PyDict) : PyDict :=
  match dictGet item "description" with
  | some d =>
    if d ≠ "" ∧ priorityKw ≠ [] then
      match rewriteBulletAsync g d priorityKw with
      | some nd => if nd ≠ "" then dictSet item "description" nd else item
      | none => item
    else item
  | none => item

/-- `RewriteTailorAgent._update_other_section`. -/
def updateOtherSection (g : Gen) (jd : JobDescription) (sec : OtherSection) : OtherSection :=
  { sec with items := sec.items.map (updateOtherItem g (getPrioritySkills jd 5)) }

/-! ### `RewriteTailorAgent._apply_edits` -/

/-- Step 1 of `_apply_edits`: the forced summary rewrite. -/
def stageSummary (g : Gen) (jd : Option JobDescription) (company role : Option String)
    (e : Profile) : Profile :=
  if pyTruthy e.summary then
    match jd with
    | some j =>
      let s := e.summary.getD ""
      let ns := rewriteSummaryJD g s j role
      if ns ≠ "" ∧ pyStrip ns ≠ "" ∧ pyStrip ns ≠ pyStrip s then { e with summary := some ns }
      else e
    | none =>
      if pyTruthy company ∨ pyTruthy role then
        let s := e.summary.getD ""
        let ns := rewriteSummaryForRole g s company role
        if ns ≠ "" ∧ ns ≠ s then { e with summary := some ns } else e
      else e
  else e

/-- Step 2 of `_apply_edits`: extensive keyword incorporation when a JD is
present, company/role edits when only those are, general improvements
otherwise. -/
def stageKeywords (g : Gen) (plan : EditPlan) (jd : Option JobDescription)
    (company role : Option String) (e : Profile) : Profile :=
  match jd with
  | some j => incorporateJdKeywords g j plan.keywords_to_add e
  | none =>
    if pyTruthy company ∨ pyTruthy role then incorporateCompanyRoleEdits g company role e
    else improveBulletsGenerally g e

/-- Step 3 of `_apply_edits`: project descriptions and bullets. -/
def stageProjects (g : Gen) (jd : Option JobDescription) (e : Profile) : Profile :=
  { e with projects := e.projects.map (step3Project g jd) }

/-- Step 4 of `_apply_edits`: forced skills update (only when the skills
list is non-empty and a JD is present). -/
def stageSkills (jd : Option JobDescription) (e : Profile) : Profile :=
  if e.skills ≠ [] then
    match jd with
    | some j => updateSkillsSection j e
    | none => e
  else e

/-- Step 5 of `_apply_edits`: other sections (rewritten only under a JD,
and only those with items). -/
def stageOther (g : Gen) (jd : Option JobDescription) (e : Profile) : Profile :=
  match jd with
  | some j => { e with other_sections := e.other_sections.map (fun sec =>
      if sec.items ≠ [] then updateOtherSection g j sec else sec) }
  | none => e

/-- The body of `_apply_edits`, acting on the working copy: the
plan-driven loop followed by the five forced steps.  The section counts
stored at the top of the source method feed warning logs only and are not
modelled. -/
def applyEditsBody (g : Gen) (plan : EditPlan) (jd : Option JobDescription)
    (company role : Option String) (e : Profile) : Profile :=
  stageOther g jd (stageSkills jd (stageProjects g jd
    (stageKeywords g plan jd company role
      (stageSummary g jd company role (plan.actions.foldl applyAction e)))))

/-- `RewriteTailorAgent._apply_edits` in the aliasing view: the pair holds
the caller's Profile object and the working copy; the method deep-copies
the caller's object into the working copy and every subsequent mutation in
the source targets the working copy. -/
def applyEditsState (g : Gen) (p : Profile) (plan : EditPlan) (jd : Option JobDescription)
    (company role : Option String) : Profile × Profile :=
  let orig := p
  let edited := orig          -- edited_profile = profile.model_copy(deep=True)
  let edited := applyEditsBody g plan jd company role edited
  (orig, edited)

/-- `RewriteTailorAgent._apply_edits`, returned value. -/
def applyEdits (g : Gen) (p : Profile) (plan : EditPlan) (jd : Option JobDescription)
    (company role : Option String) : Profile :=
  (applyEditsState g p plan jd company role).2

/-! ### Completeness evaluator (`_evaluate_edit_completeness`) -/

/-- Bullet-difference count over `zip` (the loops compare pairwise and
count inequal bullets, guarded by both lists being non-empty). -/
def zipBulletChanges (ob nb : List String) : Nat :=
  if ob ≠ [] ∧ nb ≠ [] then ((ob.zip nb).filter (fun x => x.1 ≠ x.2)).length else 0

/-- The change-detection branch of the evaluator for one section
identifier: `some (key, count)` when the branch marks the section edited
(with its `edit_counts` entry), `none` otherwise. -/
def evalSection (o e : Profile) (s : String) : Option (String × Int) :=
  if s = "summary" then
    if o.summary ≠ e.summary then some ("summary", 1) else none
  else if s = "experiences" then
    let changes := ((o.experiences.zip e.experiences).map
      (fun x => zipBulletChanges x.1.bullets x.2.bullets)).sum
    if 0 < changes then some ("experiences", changes) else none
  else if pyStartsWith "experience_" s then
    match pyInt ((pySplitU s).get? 1 |>.getD "") with
    | none => none
    | some ei =>
      if ei < (o.experiences.length : Int) ∧ ei < (e.experiences.length : Int) then
        match pyIdx o.experiences.length ei, pyIdx e.experiences.length ei with
        | some oi, some ni =>
          match o.experiences.get? oi, e.experiences.get? ni with
          | some oe, some ne =>
            let changes := zipBulletChanges oe.bullets ne.bullets
            if 0 < changes then some (s, changes) else none
          | _, _ => none
        | _, _ => none
      else none
  else if s = "projects" then
    let changes := ((o.projects.zip e.projects).map
      (fun x => zipBulletChanges x.1.bullets x.2.bullets
        + (if x.1.description ≠ x.2.description then 1 else 0))).sum
    if 0 < changes then some ("projects", changes) else none
  else if s = "skills" then
    if o.skills.length ≠ e.skills.length then
      some ("skills", (e.skills.length : Int) - (o.skills.length : Int))
    else none
  else none

/-- Evaluation report of `_evaluate_edit_completeness`. -/
structure Evaluation where
  sections_identified : Nat
  sections_edited : Nat
  missing_edits : List String
  edit_counts : List (String × Int)
  completeness_score : ℚ
deriving DecidableEq

/-- Model of `d[k] = v` on the `edit_counts` dict. -/
def dictSetI (d : List (String × Int)) (k : String) (v : Int) : List (String × Int) :=
  if d.any (fun kv => kv.1 == k) then
    d.map (fun kv => if kv.1 == k then (k, v) else kv)
  else d ++ [(k, v)]

/-- One iteration of the evaluator's section loop: mark the section
edited (recording its change count) or add it to the missing list. -/
def evalStep (o e : Profile) (ev : Evaluation) (s : String) : Evaluation :=
  match evalSection o e s with
  | some (k, c) =>
    { ev with sections_edited := ev.sections_edited + 1,
              edit_counts := dictSetI ev.edit_counts k c }
  | none => { ev with missing_edits := ev.missing_edits ++ [s] }

/-- `RewriteTailorAgent._evaluate_edit_completeness` (the `jd` parameter
is unused in the source body). -/
def evaluateEditCompleteness (o e : Profile) (sections : List String)
    (_jd : Option JobDescription) : Evaluation :=
  let folded := sections.foldl (evalStep o e)
    { sections_identified := sections.length, sections_edited := 0,
      missing_edits := [], edit_counts := [], completeness_score := 0 }
  { folded with completeness_score :=
      if 0 < folded.sections_identified then
        (folded.sections_edited : ℚ) / (folded.sections_identified : ℚ)
      else 0 }

/-! ### `RewriteTailorAgent.process` and `customize_resume` -/

/-- The minimal plan substituted when plan creation raises or its JSON
output cannot be parsed. -/
def failedPlan : EditPlan :=
  { actions := [], summary := "Edit plan creation failed",
    estimated_ats_score_improvement := 0 }

/-- `RewriteTailorAgent.process`: identify the sections, create the plan
(an oracle failure yields the minimal plan), apply the edits, evaluate
completeness (the evaluation is logged, not returned), and return the
edited profile.  Instructions flow only into prompt text, i.e. into the
oracle, and are not modelled separately. -/
def processAgent (g : Gen) (p : Profile) (jd : Option JobDescription)
    (company role : Option String) : Profile × Evaluation :=
  let sections := identifySections p
  let plan := (g.planOut).getD failedPlan
  let edited := applyEdits g p plan jd company role
  (edited, evaluateEditCompleteness p edited sections jd)

/-- Result record of `customize_resume`. -/
structure CustomizeResult where
  edited_profile : Option Profile
  success : Bool
  error : Option String
deriving DecidableEq

/-- `customize_resume` via `BaseAgent.execute`: a Profile input is not a
string, so the input guardrails and the moderation check pass it through
(`input_type="resume_customization"` adds no checks); output-guardrail
violations are collected but never flip success; the evaluator catches
its own exceptions; and every generation exception inside `process` is
caught locally, so the wrapper reports success with the edited profile. -/
def customizeResume (g : Gen) (p : Profile) (jd : Option JobDescription)
    (company role : Option String) : CustomizeResult :=
  { edited_profile := some (processAgent g p jd company role).1,
    success := true, error := none }

/-! ### Auxiliary observations used in claims -/

/-- The top-level sequence counts the structure-integrity guard watches:
experiences, projects, education, certifications, awards, other sections. -/
def structCounts (p : Profile) : Nat × Nat × Nat × Nat × Nat × Nat :=
  (p.experiences.length, p.projects.length, p.education.length,
   p.certifications.length, p.awards.length, p.other_sections.length)

/-! ### The section enumeration as the spec claims it (refinement side)

These definitions follow the words of the claim for C7 — "one identifier
per bullet plus one technology-list identifier for every experience with
at least one bullet, one identifier per bullet plus one description
identifier for every project with bullets or a description, … and nothing
else" — so that they can be compared with `identifySections`, which is
translated from the source. -/

/-- Description identifier the claim posits for projects. -/
def projDescId (i : Nat) : String := "project_" ++ natRepr i ++ "_description"

/-- Claimed per-experience identifiers. -/
def claimedExpIds : Nat → List Experience → List String
  | _, [] => []
  | i, e :: es =>
    (if e.bullets ≠ [] then
        (List.range e.bullets.length).map (fun j => expBulletId i j) ++ [expTechId i]
      else [])
    ++ claimedExpIds (i + 1) es

/-- Claimed per-project identifiers. -/
def claimedProjIds : Nat → List Project → List String
  | _, [] => []
  | i, pr :: ps =>
    (if pr.bullets ≠ [] ∨ pyTruthy pr.description then
        (List.range pr.bullets.length).map (fun j => projBulletId i j) ++ [projDescId i]
      else [])
    ++ claimedProjIds (i + 1) ps

/-- The identifiers the source enumeration assigns to the experience at
index `i` (used to state the corrected C7 characterization). -/
def expIdsAt (i : Nat) (e : Experience) (s : String) : Prop :=
  (e.bullets ≠ [] ∧ (s = expBulletsId i ∨ ∃ j, j < e.bullets.length ∧ s = expBulletId i j))
  ∨ (e.technologies ≠ [] ∧ s = expTechId i)

/-- The identifiers the source enumeration assigns to the project at
index `i`. -/
def projIdsAt (i : Nat) (pr : Project) (s : String) : Prop :=
  (pr.bullets ≠ [] ∨ pyTruthy pr.description) ∧
    (s = projId i ∨ (pr.bullets ≠ [] ∧ ∃ j, j < pr.bullets.length ∧ s = projBulletId i j))

/-- The enumeration exactly as claim C7 words it. -/
def claimedIdentify (p : Profile) : List String :=
  (if pyTruthy p.summary then ["summary"] else [])
  ++ claimedExpIds 0 p.experiences
  ++ claimedProjIds 0 p.projects
  ++ (if p.skills ≠ [] then ["skills"] else [])
  ++ (p.other_sections.filter (fun s => s.items ≠ [])).map (fun s => otherSectionId s.name)

/-! ### Concrete fixtures for counterexamples and witnesses -/

/-- C5 example: required skill A of importance 0.6, preferred skill B of
importance 0.8. -/
def jdC5 : JobDescription :=
  { required_skills := [{ skill := "A", importance := 3/5 }],
    preferred_skills := [{ skill := "B", is_required := false, importance := 4/5 }] }

/-- C8 counterexample JD: 11 required skills. -/
def jd8 : JobDescription :=
  { required_skills :=
      (List.range 11).map (fun i => { skill := "Req" ++ natRepr i, importance := 1 }) }

/-- C8 counterexample profile: one existing skill. -/
def p8 : Profile := { skills := [mkSkillNamed "X"] }

/-- C2 counterexample profile. -/
def p2 : Profile := { skills := [mkSkillNamed "Python"] }

/-- C2 counterexample JD: one required skill missing from `p2`. -/
def jd2 : JobDescription :=
  { required_skills := [{ skill := "Rust", importance := 1 }] }

/-- C4/C10 counterexample originals/edits. -/
def o4 : Profile :=
  { experiences := [{ title := "T", company := "C", bullets := ["a", "b"] }] }

/-- Edited version of `o4`: bullet 0 changed, bullet 1 unchanged. -/
def e4 : Profile :=
  { experiences := [{ title := "T", company := "C", bullets := ["c", "b"] }] }

/-- C10 counterexample original experience: one bullet, one technology. -/
def exp10o : Experience :=
  { title := "T", company := "C", bullets := ["a"], technologies := ["t"] }

/-- C10 counterexample edited experience: the bullet changed, the
technologies did not. -/
def exp10e : Experience :=
  { title := "T", company := "C", bullets := ["b"], technologies := ["t"] }

/-- C10 counterexample original profile. -/
def o10 : Profile := { experiences := [exp10o] }

/-- C10 counterexample edited profile. -/
def e10 : Profile := { experiences := [exp10e] }

/-- C7 counterexample profile: one experience with a bullet and no
technologies. -/
def pc7 : Profile :=
  { experiences := [{ title := "T", company := "C", bullets := ["x"] }] }

/-! ### Technology normalizer (`tech_normalizer.py`)

Python strings are sequences of code points; the normalizer needs
character-level reasoning, so it is embedded over `List Nat` (one entry
per code point).  Case operations use ASCII semantics.  Ratios are kept
as exact pairs (2·matches, total length) and compared by cross
multiplication: for these short strings float rounding cannot flip any
comparison the source makes. -/

/-- Code points of a Lean string literal. -/
def pstr (s : String) : List Nat := s.data.map Char.toNat

/-- ASCII lowercase of one code point. -/
def lowNat (c : Nat) : Nat := if 65 ≤ c ∧ c ≤ 90 then c + 32 else c

/-- ASCII uppercase of one code point. -/
def upNat (c : Nat) : Nat := if 97 ≤ c ∧ c ≤ 122 then c - 32 else c

/-- `str.lower`. -/
def lowerN (l : List Nat) : List Nat := l.map lowNat

/-- Whitespace code points stripped by `str.strip` (ASCII). -/
def wsN (c : Nat) : Bool :=
  decide (c = 32 ∨ c = 9 ∨ c = 10 ∨ c = 13 ∨ c = 11 ∨ c = 12)

/-- `str.strip`. -/
def stripN (l : List Nat) : List Nat :=
  ((l.dropWhile wsN).reverse.dropWhile wsN).reverse

/-- Cased (ASCII letter) code point. -/
def alphaN (c : Nat) : Bool := decide ((65 ≤ c ∧ c ≤ 90) ∨ (97 ≤ c ∧ c ≤ 122))

/-- Uppercase ASCII letter. -/
def upperAlphaN (c : Nat) : Bool := decide (65 ≤ c ∧ c ≤ 90)

/-- Worker for `str.title`: a cased character is uppercased when the
previous character is not cased, lowercased otherwise. -/
def titleGo : Bool → List Nat → List Nat
  | _, [] => []
  | prevCased, c :: cs =>
    (if alphaN c then (if prevCased then lowNat c else upNat c) else c)
      :: titleGo (alphaN c) cs

/-- `str.title`. -/
def titleN (l : List Nat) : List Nat := titleGo false l

/-- `str.islower`: at least one cased character, and no cased character
is uppercase. -/
def islowerN (l : List Nat) : Bool :=
  l.any alphaN && l.all (fun c => !upperAlphaN c)

/-- Length of the common run at the heads of two code-point lists. -/
def runLen : List Nat → List Nat → Nat
  | a :: as, b :: bs => if a = b then runLen as bs + 1 else 0
  | _, _ => 0

/-- `difflib.SequenceMatcher.find_longest_match` on junk-free input: the
longest common contiguous block `(i, j, k)`, ties resolved toward the
smallest start in `a`, then the smallest start in `b`. -/
def bestBlock (a b : List Nat) : Nat × Nat × Nat :=
  ((List.range a.length).flatMap (fun i => (List.range b.length).map (fun j =>
      (i, j, runLen (a.drop i) (b.drop j))))).foldl
    (fun best c => if best.2.2 < c.2.2 then c else best) (0, 0, 0)

/-- Total matched size of `get_matching_blocks`' recursive decomposition
(the fuel, always at least the recursion depth, makes the recursion
structural; callers pass `|a| + |b| + 1`). -/
def matchTotal : Nat → List Nat → List Nat → Nat
  | 0, _, _ => 0
  | fuel + 1, a, b =>
    let ijk := bestBlock a b
    if ijk.2.2 = 0 then 0
    else matchTotal fuel (a.take ijk.1) (b.take ijk.2.1) + ijk.2.2
      + matchTotal fuel (a.drop (ijk.1 + ijk.2.2)) (b.drop (ijk.2.1 + ijk.2.2))

/-- `SequenceMatcher.ratio()` as an exact pair (2·M, |a|+|b|); difflib
returns 1.0 when both strings are empty. -/
def ratioPair (a b : List Nat) : Nat × Nat :=
  if a.length + b.length = 0 then (1, 1)
  else (2 * matchTotal (a.length + b.length + 1) a b, a.length + b.length)

/-- Exact `score > best_score`. -/
def scoreGt (p q : Nat × Nat) : Bool := decide (q.1 * p.2 < p.1 * q.2)

/-- Exact `score >= 0.8`. -/
def scoreGeThreshold (p : Nat × Nat) : Bool := decide (4 * p.2 ≤ 5 * p.1)

/-- The `_build_normalization_map` table (dict-literal duplicate keys
collapsed: `pytorch`, `numpy` and `git` are repeated in the source with
identical values, and a Python dict keeps one entry). -/
def normalizationMap : List (List Nat × List Nat) := [
  (pstr "python", pstr "Python"), (pstr "py", pstr "Python"),
  (pstr "pytorch", pstr "PyTorch"), (pstr "torch", pstr "PyTorch"),
  (pstr "tensorflow", pstr "TensorFlow"), (pstr "tf", pstr "TensorFlow"),
  (pstr "keras", pstr "Keras"),
  (pstr "scikit-learn", pstr "scikit-learn"), (pstr "sklearn", pstr "scikit-learn"),
  (pstr "scikit", pstr "scikit-learn"),
  (pstr "pandas", pstr "pandas"), (pstr "numpy", pstr "NumPy"),
  (pstr "jupyter", pstr "Jupyter"), (pstr "jupyter notebook", pstr "Jupyter"),
  (pstr "llm", pstr "LLMs"), (pstr "llms", pstr "LLMs"),
  (pstr "large language models", pstr "LLMs"),
  (pstr "langchain", pstr "LangChain"), (pstr "lang chain", pstr "LangChain"),
  (pstr "openai", pstr "OpenAI"), (pstr "open ai", pstr "OpenAI"),
  (pstr "gpt", pstr "GPT"), (pstr "gpt-4", pstr "GPT-4"), (pstr "gpt-3", pstr "GPT-3"),
  (pstr "gpt3", pstr "GPT-3"), (pstr "gpt4", pstr "GPT-4"),
  (pstr "chatgpt", pstr "ChatGPT"), (pstr "chat gpt", pstr "ChatGPT"),
  (pstr "claude", pstr "Claude"), (pstr "anthropic", pstr "Anthropic"),
  (pstr "hugging face", pstr "Hugging Face"), (pstr "huggingface", pstr "Hugging Face"),
  (pstr "transformers", pstr "Transformers"),
  (pstr "react", pstr "React"), (pstr "react.js", pstr "React"),
  (pstr "reactjs", pstr "React"),
  (pstr "vue", pstr "Vue.js"), (pstr "vue.js", pstr "Vue.js"), (pstr "vuejs", pstr "Vue.js"),
  (pstr "angular", pstr "Angular"), (pstr "angularjs", pstr "AngularJS"),
  (pstr "node", pstr "Node.js"), (pstr "nodejs", pstr "Node.js"),
  (pstr "node.js", pstr "Node.js"),
  (pstr "express", pstr "Express.js"), (pstr "expressjs", pstr "Express.js"),
  (pstr "django", pstr "Django"), (pstr "flask", pstr "Flask"),
  (pstr "fastapi", pstr "FastAPI"), (pstr "fast api", pstr "FastAPI"),
  (pstr "postgresql", pstr "PostgreSQL"), (pstr "postgres", pstr "PostgreSQL"),
  (pstr "mysql", pstr "MySQL"),
  (pstr "mongodb", pstr "MongoDB"), (pstr "mongo", pstr "MongoDB"),
  (pstr "redis", pstr "Redis"),
  (pstr "sqlite", pstr "SQLite"), (pstr "sqlite3", pstr "SQLite"),
  (pstr "aws", pstr "AWS"), (pstr "amazon web services", pstr "AWS"),
  (pstr "azure", pstr "Azure"), (pstr "microsoft azure", pstr "Azure"),
  (pstr "gcp", pstr "GCP"), (pstr "google cloud", pstr "GCP"),
  (pstr "google cloud platform", pstr "GCP"),
  (pstr "docker", pstr "Docker"), (pstr "kubernetes", pstr "Kubernetes"),
  (pstr "k8s", pstr "Kubernetes"), (pstr "jenkins", pstr "Jenkins"),
  (pstr "git", pstr "Git"), (pstr "github", pstr "GitHub"), (pstr "gitlab", pstr "GitLab"),
  (pstr "ci/cd", pstr "CI/CD"), (pstr "cicd", pstr "CI/CD"),
  (pstr "terraform", pstr "Terraform"), (pstr "ansible", pstr "Ansible"),
  (pstr "javascript", pstr "JavaScript"), (pstr "js", pstr "JavaScript"),
  (pstr "typescript", pstr "TypeScript"), (pstr "ts", pstr "TypeScript"),
  (pstr "java", pstr "Java"),
  (pstr "c++", pstr "C++"), (pstr "cpp", pstr "C++"),
  (pstr "c#", pstr "C#"), (pstr "csharp", pstr "C#"),
  (pstr "go", pstr "Go"), (pstr "golang", pstr "Go"),
  (pstr "rust", pstr "Rust"), (pstr "ruby", pstr "Ruby"), (pstr "php", pstr "PHP"),
  (pstr "swift", pstr "Swift"), (pstr "kotlin", pstr "Kotlin"),
  (pstr "scala", pstr "Scala"), (pstr "r", pstr "R"), (pstr "matlab", pstr "MATLAB"),
  (pstr "linux", pstr "Linux"), (pstr "unix", pstr "Unix"),
  (pstr "bash", pstr "Bash"), (pstr "shell", pstr "Shell"), (pstr "sql", pstr "SQL")]

/-- The `_build_categories` table. -/
def categoriesTable : List (SkillCat × List (List Nat)) := [
  (SkillCat.programming_language,
    [pstr "Python", pstr "JavaScript", pstr "TypeScript", pstr "Java", pstr "C++",
     pstr "C#", pstr "Go", pstr "Rust", pstr "Ruby", pstr "PHP", pstr "Swift",
     pstr "Kotlin", pstr "Scala", pstr "R", pstr "MATLAB"]),
  (SkillCat.framework,
    [pstr "React", pstr "Vue.js", pstr "Angular", pstr "Django", pstr "Flask",
     pstr "FastAPI", pstr "Express.js", pstr "Node.js", pstr "PyTorch",
     pstr "TensorFlow"]),
  (SkillCat.library,
    [pstr "pandas", pstr "NumPy", pstr "scikit-learn", pstr "Keras",
     pstr "LangChain", pstr "Transformers"]),
  (SkillCat.database,
    [pstr "PostgreSQL", pstr "MySQL", pstr "MongoDB", pstr "Redis", pstr "SQLite"]),
  (SkillCat.cloud, [pstr "AWS", pstr "Azure", pstr "GCP"]),
  (SkillCat.devops,
    [pstr "Docker", pstr "Kubernetes", pstr "Jenkins", pstr "Git", pstr "Terraform",
     pstr "Ansible", pstr "CI/CD"]),
  (SkillCat.ml_ai,
    [pstr "PyTorch", pstr "TensorFlow", pstr "LLMs", pstr "GPT", pstr "ChatGPT",
     pstr "Claude", pstr "Hugging Face", pstr "Transformers", pstr "scikit-learn"])]

/-- `TechNormalizer._get_category`: the first category whose list holds
the name. -/
def getCategory (name : List Nat) : Option SkillCat :=
  (categoriesTable.find? (fun ct => decide (name ∈ ct.2))).map (·.1)

/-- Dict lookup in the normalization map. -/
def dictFind (k : List Nat) : Option (List Nat) :=
  (normalizationMap.find? (fun kv => decide (kv.1 = k))).map (·.2)

/-- One iteration of the `_fuzzy_match` loop: keep the table entry when
its score strictly improves the best and clears the 0.8 threshold. -/
def fuzzyStep (techName : List Nat)
    (best : Option (List Nat × List Nat) × Nat × Nat) (kv : List Nat × List Nat) :
    Option (List Nat × List Nat) × Nat × Nat :=
  let score := ratioPair techName kv.1
  if scoreGt score best.2 && scoreGeThreshold score then (some kv, score) else best

/-- `TechNormalizer._fuzzy_match` with threshold 0.8: best
strictly-improving score in table order; the winning table entry is
carried whole, so that `normalization_map[best_match]` is its value. -/
def fuzzyMatch (techName : List Nat) : Option (List Nat × List Nat) :=
  (normalizationMap.foldl (fuzzyStep techName) (none, 0, 1)).1

/-- `TechNormalizer.normalize`. -/
def normalize (techName : List Nat) : List Nat × Option SkillCat :=
  if techName = [] then (techName, none)
  else
    let cleaned := stripN techName
    let cleanedLower := lowerN cleaned
    match dictFind cleanedLower with
    | some v => (v, getCategory v)
    | none =>
      match fuzzyMatch cleanedLower with
      | some kv => (kv.2, getCategory kv.2)
      | none =>
        let normalized := if islowerN cleaned then titleN cleaned else cleaned
        (normalized, getCategory normalized)

/-! ## Lemmas about the stable descending sort -/

theorem mem_insertDescBy {α : Type} (w : α → ℚ) (x : α) (l : List α) (z : α) :
    z ∈ insertDescBy w x l ↔ z = x ∨ z ∈ l := by
  induction l with
  | nil => simp [insertDescBy]
  | cons y ys ih =>
    simp only [insertDescBy]
    split
    · simp [or_comm, or_assoc, or_left_comm]
    · simp only [List.mem_cons, ih]
      tauto

theorem pairwise_insertDescBy {α : Type} (w : α → ℚ) (x : α) (l : List α)
    (h : l.Pairwise (fun a b => w b ≤ w a)) :
    (insertDescBy w x l).Pairwise (fun a b => w b ≤ w a) := by
  induction l with
  | nil => simp [insertDescBy]
  | cons y ys ih =>
    rw [List.pairwise_cons] at h
    simp only [insertDescBy]
    split
    · rename_i hlt
      refine List.pairwise_cons.mpr ⟨?_, List.pairwise_cons.mpr h⟩
      intro z hz
      rcases List.mem_cons.mp hz with rfl | hz
      · exact le_of_lt hlt
      · exact (h.1 z hz).trans (le_of_lt hlt)
    · rename_i hge
      refine List.pairwise_cons.mpr ⟨?_, ih h.2⟩
      intro z hz
      rcases (mem_insertDescBy w x ys z).mp hz with rfl | hz
      · exact le_of_not_lt hge
      · exact h.1 z hz

theorem filter_insertDescBy {α : Type} (w : α → ℚ) (q : ℚ) (x : α) (l : List α)
    (h : l.Pairwise (fun a b => w b ≤ w a)) :
    (insertDescBy w x l).filter (fun y => decide (w y = q)) =
      if w x = q then l.filter (fun y => decide (w y = q)) ++ [x]
      else l.filter (fun y => decide (w y = q)) := by
  induction l with
  | nil =>
    by_cases hx : w x = q <;> simp [insertDescBy, List.filter, hx]
  | cons y ys ih =>
    rw [List.pairwise_cons] at h
    simp only [insertDescBy]
    split
    · rename_i hlt
      have hnil : (y :: ys).filter (fun z => decide (w z = q)) = [] ∨ w x ≠ q := by
        by_cases hx : w x = q
        · left
          rw [List.filter_eq_nil_iff]
          intro z hz
          have hzlt : w z < q := by
            rcases List.mem_cons.mp hz with rfl | hz2
            · exact lt_of_lt_of_eq hlt hx
            · exact lt_of_le_of_lt (h.1 z hz2) (lt_of_lt_of_eq hlt hx)
          simpa using ne_of_lt hzlt
        · right; exact hx
      by_cases hx : w x = q
      · rcases hnil with hnil | hnil
        · simp [List.filter_cons, hx, hnil]
        · exact absurd hx hnil
      · simp [List.filter_cons, hx]
    · rename_i hge
      by_cases hx : w x = q <;>
        by_cases hy : w y = q <;>
          simp [List.filter_cons, hx, hy, ih h.2]

theorem pyStableSortDesc_go {α : Type} (w : α → ℚ) (q : ℚ) :
    ∀ (l acc : List α), acc.Pairwise (fun a b => w b ≤ w a) →
      (l.foldl (fun acc x => insertDescBy w x acc) acc).Pairwise (fun a b => w b ≤ w a) ∧
      (l.foldl (fun acc x => insertDescBy w x acc) acc).filter (fun y => decide (w y = q)) =
        acc.filter (fun y => decide (w y = q)) ++ l.filter (fun y => decide (w y = q)) := by
  intro l
  induction l with
  | nil => intro acc hacc; simpa using hacc
  | cons x xs ih =>
    intro acc hacc
    simp only [List.foldl_cons]
    obtain ⟨hs, hf⟩ := ih (insertDescBy w x acc) (pairwise_insertDescBy w x acc hacc)
    refine ⟨hs, ?_⟩
    rw [hf, filter_insertDescBy w q x acc hacc]
    by_cases hx : w x = q <;> simp [List.filter_cons, hx]

/-- The stable descending sort is sorted: weights are non-increasing. -/
theorem pyStableSortDesc_sorted {α : Type} (w : α → ℚ) (l : List α) :
    (pyStableSortDesc w l).Pairwise (fun a b => w b ≤ w a) :=
  (pyStableSortDesc_go w 0 l [] (by simp)).1

/-- Stability: for every key value, the elements of that key appear in
their original relative order (their filter is preserved verbatim). -/
theorem pyStableSortDesc_filter {α : Type} (w : α → ℚ) (q : ℚ) (l : List α) :
    (pyStableSortDesc w l).filter (fun y => decide (w y = q)) =
      l.filter (fun y => decide (w y = q)) := by
  simpa [List.filter] using (pyStableSortDesc_go w q l [] (by simp)).2

/-!
## C5 — priority skill ordering
-/

/-- Claim C5: `get_priority_skills(n)` takes the names of the first `n`
entries of the weighted skill list (required importance × 1.5, then
preferred importance, in insertion order) sorted stably by descending
effective importance: the sorted list is pairwise non-increasing in
weight, ties keep original insertion order (for every key value the
filter of the sorted list equals the filter of the insertion-ordered
weighted list), and on the claim's example the required skill A of
importance 0.6 outranks the preferred skill B of importance 0.8. -/
theorem c5_priority_skill_ordering :
    (∀ (jd : JobDescription) (n : Nat),
        getPrioritySkills jd n = ((prioritySorted jd).take n).map (·.1) ∧
        (prioritySorted jd).Pairwise (fun a b => b.2 ≤ a.2) ∧
        ∀ q : ℚ, (prioritySorted jd).filter (fun x => decide (x.2 = q)) =
          (weightedSkills jd).filter (fun x => decide (x.2 = q)))
    ∧ getPrioritySkills jdC5 10 = ["A", "B"] := by
  constructor
  · intro jd n
    exact ⟨rfl, pyStableSortDesc_sorted (·.2) (weightedSkills jd),
      fun q => pyStableSortDesc_filter (·.2) q (weightedSkills jd)⟩
  · with_unfolding_all decide

/-!
## C3 — fallback keywords for non-matching bullets
-/

/-- Counterexample to claim C3 as stated: on the bullet "zzz", which has
zero keyword overlap with the keyword "Python" (no direct substring, no
keyword-word-in-bullet, no bullet-word-in-keyword match, as the second
conjunct certifies), `_find_relevant_keywords` returns the empty list,
not a non-empty top-N fallback: the fallback lives in the caller. -/
theorem c3_counterexample :
    findRelevantKeywords "zzz" ["Python"] = [] ∧
    kwMatches (pyLower "zzz") (pyLower "Python") = false := by decide

/-- C3 amended: when a bullet has zero keyword overlap (none of the first
15 keywords matches by substring, keyword-word-in-bullet, or
bullet-word-in-keyword), `_find_relevant_keywords` itself returns the
empty list, and the caller `_incorporate_jd_keywords_extensive` then
substitutes the top-5 priority keywords, so the keywords actually used
for the rewrite are non-empty whenever the JD yields at least one
priority keyword. -/
theorem c3_fallback (bullet : String) (allKw priorityKw : List String)
    (h : ∀ kw ∈ (allKw ++ priorityKw).take 15, kwMatches (pyLower bullet) (pyLower kw) = false) :
    findRelevantKeywords bullet (allKw ++ priorityKw) = [] ∧
    effectiveRelevantKeywords bullet allKw priorityKw = priorityKw.take 5 ∧
    (priorityKw ≠ [] → effectiveRelevantKeywords bullet allKw priorityKw ≠ []) := by
  have hnil : findRelevantKeywords bullet (allKw ++ priorityKw) = [] := by
    unfold findRelevantKeywords
    have : ((allKw ++ priorityKw).take 15).filter
        (fun kw => kwMatches (pyLower bullet) (pyLower kw)) = [] := by
      rw [List.filter_eq_nil_iff]
      intro kw hkw
      simp [h kw hkw]
    simp [this]
  refine ⟨hnil, ?_, ?_⟩
  · unfold effectiveRelevantKeywords
    simp [hnil]
  · intro hne
    unfold effectiveRelevantKeywords
    simp only [hnil, if_pos rfl]
    cases priorityKw with
    | nil => exact absurd rfl hne
    | cons a l => simp

/-- Witness for `c3_fallback` at the concrete zero-overlap input. -/
theorem c3_fallback_witness :
    (∀ kw ∈ (["Python"] ++ ["Rust"]).take 15,
        kwMatches (pyLower "zzz") (pyLower kw) = false) ∧
    effectiveRelevantKeywords "zzz" ["Python"] ["Rust"] = ["Rust"].take 5 :=
  ⟨by decide, (c3_fallback "zzz" ["Python"] ["Rust"] (by decide)).2.1⟩

/-!
## Lemmas about the completeness evaluator
-/

theorem evalFold_spec (o e : Profile) :
    ∀ (sections : List String) (ev : Evaluation),
      ((sections.foldl (evalStep o e) ev).sections_identified = ev.sections_identified) ∧
      ((sections.foldl (evalStep o e) ev).sections_edited =
        ev.sections_edited + sections.countP (fun s => (evalSection o e s).isSome)) ∧
      ((sections.foldl (evalStep o e) ev).missing_edits =
        ev.missing_edits ++ sections.filter (fun s => !(evalSection o e s).isSome)) ∧
      ((sections.foldl (evalStep o e) ev).completeness_score = ev.completeness_score) := by
  intro sections
  induction sections with
  | nil => intro ev; simp
  | cons s ss ih =>
    intro ev
    obtain ⟨ih1, ih2, ih3, ih4⟩ := ih (evalStep o e ev s)
    simp only [List.foldl_cons, List.countP_cons, List.filter_cons]
    cases hs : evalSection o e s with
    | some kc =>
      obtain ⟨k, c⟩ := kc
      have hstep : evalStep o e ev s =
          { ev with sections_edited := ev.sections_edited + 1,
                    edit_counts := dictSetI ev.edit_counts k c } := by
        simp [evalStep, hs]
      rw [hstep] at ih1 ih2 ih3 ih4
      rw [hstep]
      refine ⟨by simpa using ih1, ?_, ?_, by simpa using ih4⟩
      · rw [ih2]; simp [hs]; omega
      · rw [ih3]; simp [hs]
    | none =>
      have hstep : evalStep o e ev s =
          { ev with missing_edits := ev.missing_edits ++ [s] } := by
        simp [evalStep, hs]
      rw [hstep] at ih1 ih2 ih3 ih4
      rw [hstep]
      refine ⟨by simpa using ih1, ?_, ?_, by simpa using ih4⟩
      · rw [ih2]; simp [hs]
      · rw [ih3]; simp [hs]

theorem evaluate_spec (o e : Profile) (sections : List String) (jd : Option JobDescription) :
    (evaluateEditCompleteness o e sections jd).sections_identified = sections.length ∧
    (evaluateEditCompleteness o e sections jd).sections_edited =
      sections.countP (fun s => (evalSection o e s).isSome) ∧
    (evaluateEditCompleteness o e sections jd).missing_edits =
      sections.filter (fun s => !(evalSection o e s).isSome) ∧
    (evaluateEditCompleteness o e sections jd).completeness_score =
      (if 0 < sections.length then
        ((sections.countP (fun s => (evalSection o e s).isSome) : ℚ) / (sections.length : ℚ))
      else 0) := by
  obtain ⟨h1, h2, h3, h4⟩ := evalFold_spec o e sections
    { sections_identified := sections.length, sections_edited := 0,
      missing_edits := [], edit_counts := [], completeness_score := 0 }
  unfold evaluateEditCompleteness
  refine ⟨by simp [h1], by simpa using h2, by simpa using h3, ?_⟩
  simp only [h1, h2]
  norm_num

/-!
## C4 — completeness score bounds
-/

/-- Counterexample to claim C4 as stated: with the single identified unit
`experience_0_bullet_1`, whose content ("b") is identical in the original
and the edited profile, the evaluator still reports completeness 1.0,
because the `experience_` branch counts a change anywhere in experience
0's bullets (here bullet 0 changed from "a" to "c").  So a score of 1.0
does not imply that every identified unit's own content differs. -/
theorem c4_counterexample :
    (evaluateEditCompleteness o4 e4 ["experience_0_bullet_1"] none).completeness_score = 1 ∧
    o4.experiences.head?.map (fun x => x.bullets.get? 1) = some (some "b") ∧
    e4.experiences.head?.map (fun x => x.bullets.get? 1) = some (some "b") := by
  with_unfolding_all decide

/-- C4 amended: the completeness score always lies in [0, 1], is 0 when
no units were identified, and equals 1.0 exactly when the identified list
is non-empty and every identified unit is marked edited by its detection
branch (`evalSection`) — a per-bullet or per-technology identifier is
marked edited whenever any bullet of its experience changed, so 1.0 does
not require every unit's own content to differ. -/
theorem c4_score_bounds (o e : Profile) (sections : List String) (jd : Option JobDescription) :
    0 ≤ (evaluateEditCompleteness o e sections jd).completeness_score ∧
    (evaluateEditCompleteness o e sections jd).completeness_score ≤ 1 ∧
    (sections = [] → (evaluateEditCompleteness o e sections jd).completeness_score = 0) ∧
    ((evaluateEditCompleteness o e sections jd).completeness_score = 1 ↔
      sections ≠ [] ∧ ∀ s ∈ sections, (evalSection o e s).isSome) := by
  obtain ⟨h1, h2, h3, h4⟩ := evaluate_spec o e sections jd
  rw [h4]
  have hcle : sections.countP (fun s => (evalSection o e s).isSome) ≤ sections.length :=
    List.countP_le_length _
  by_cases hlen : 0 < sections.length
  · have hlenq : (0 : ℚ) < (sections.length : ℚ) := by exact_mod_cast hlen
    rw [if_pos hlen]
    refine ⟨div_nonneg (by positivity) (le_of_lt hlenq), ?_, ?_, ?_⟩
    · rw [div_le_one hlenq]
      exact_mod_cast hcle
    · intro hnil; rw [hnil] at hlen; simp at hlen
    · rw [div_eq_one_iff_eq (ne_of_gt hlenq)]
      constructor
      · intro hc
        have hc2 : sections.countP (fun s => (evalSection o e s).isSome) = sections.length := by
          exact_mod_cast hc
        refine ⟨fun hnil => by simp [hnil] at hlen, ?_⟩
        intro s hsmem
        have := (List.countP_eq_length).mp hc2 s hsmem
        simpa using this
      · rintro ⟨-, hall⟩
        have : sections.countP (fun s => (evalSection o e s).isSome) = sections.length :=
          List.countP_eq_length.mpr (fun s hs => by simpa using hall s hs)
        exact_mod_cast this
  · rw [if_neg hlen]
    have hnil : sections = [] := by
      cases sections with
      | nil => rfl
      | cons a l => simp at hlen
    refine ⟨le_refl 0, by norm_num, fun _ => rfl, ?_⟩
    constructor
    · intro h01; exact absurd h01 (by norm_num)
    · rintro ⟨hne, -⟩; exact absurd hnil hne

/-!
## Lemmas about decimal rendering, parsing and underscore splitting
-/

theorem digitChar_bounds (n : Nat) : '0' ≤ digitChar n ∧ digitChar n ≤ '9' := by
  unfold digitChar
  split <;> decide

theorem digitVal_digitChar (n : Nat) (h : n < 10) : digitVal (digitChar n) = some n := by
  interval_cases n <;> decide

theorem natReprL_ne_nil (n : Nat) : natReprL n ≠ [] := by
  rw [natReprL]
  split <;> simp

theorem natReprL_digits (n : Nat) : ∀ c ∈ natReprL n, '0' ≤ c ∧ c ≤ '9' := by
  induction n using Nat.strong_induction_on with
  | _ n ih =>
    rw [natReprL]
    split
    · intro c hc
      rw [List.mem_singleton] at hc
      subst hc
      exact digitChar_bounds n
    · rename_i h
      intro c hc
      rcases List.mem_append.mp hc with hc | hc
      · exact ih (n / 10) (Nat.div_lt_self (by omega) (by omega)) c hc
      · rw [List.mem_singleton] at hc
        subst hc
        exact digitChar_bounds (n % 10)

theorem parseDigitsGo_append (l1 l2 : List Char) : ∀ acc,
    parseDigitsGo acc (l1 ++ l2) =
      match parseDigitsGo acc l1 with
      | some m => parseDigitsGo m l2
      | none => none := by
  induction l1 with
  | nil => intro acc; simp [parseDigitsGo]
  | cons c cs ih =>
    intro acc
    simp only [List.cons_append, parseDigitsGo]
    cases digitVal c <;> simp [ih]

theorem parseDigitsGo_natReprL (n : Nat) : ∀ acc,
    parseDigitsGo acc (natReprL n) = some (acc * 10 ^ (natReprL n).length + n) := by
  induction n using Nat.strong_induction_on with
  | _ n ih =>
    intro acc
    rw [natReprL]
    split
    · rename_i h
      simp [parseDigitsGo, digitVal_digitChar n h]
    · rename_i h
      rw [parseDigitsGo_append]
      rw [ih (n / 10) (Nat.div_lt_self (by omega) (by omega)) acc]
      simp only [parseDigitsGo, digitVal_digitChar (n % 10) (Nat.mod_lt n (by omega))]
      rw [List.length_append]
      simp only [List.length_singleton, pow_succ, parseDigitsGo]
      have hdm := Nat.div_add_mod n 10
      congr 1
      ring_nf
      omega

theorem pyInt_natRepr (n : Nat) : pyInt (natRepr n) = some (n : Int) := by
  obtain ⟨c, cs, hcons⟩ : ∃ c cs, natReprL n = c :: cs := by
    cases h : natReprL n with
    | nil => exact absurd h (natReprL_ne_nil n)
    | cons c cs => exact ⟨c, cs, rfl⟩
  have hc := natReprL_digits n c (hcons ▸ List.mem_cons_self c cs)
  have h1 : (c == '-') = false := by
    rw [beq_eq_false_iff_ne]
    intro he
    subst he
    exact absurd hc.1 (by decide)
  have h2 : (c == '+') = false := by
    rw [beq_eq_false_iff_ne]
    intro he
    subst he
    exact absurd hc.1 (by decide)
  show pyIntL (natRepr n).data = some (n : Int)
  have hdata : (natRepr n).data = natReprL n := rfl
  rw [hdata, hcons]
  simp only [pyIntL, h1, h2, Bool.false_eq_true, if_false]
  have : parseDigitsNE (c :: cs) = some n := by
    unfold parseDigitsNE
    rw [if_neg (by simp)]
    rw [← hcons, parseDigitsGo_natReprL n 0]
    simp
  rw [this]
  rfl

theorem splitUGo_sep (acc l : List Char) :
    splitUGo acc ('_' :: l) = acc.reverse :: splitUGo [] l := by
  simp [splitUGo]

theorem splitUGo_no_sep (l1 : List Char) (h : ∀ c ∈ l1, c ≠ '_') :
    ∀ (acc : List Char) (l2 : List Char),
      splitUGo acc (l1 ++ l2) = splitUGo (l1.reverse ++ acc) l2 := by
  induction l1 with
  | nil => intro acc l2; simp
  | cons c cs ih =>
    intro acc l2
    simp only [List.cons_append, splitUGo]
    rw [if_neg (by simpa using h c (List.mem_cons_self c cs))]
    simp only [List.append_eq]
    rw [ih (fun x hx => h x (List.mem_cons_of_mem c hx)) (c :: acc) l2]
    simp

theorem splitUGo_final (l : List Char) (h : ∀ c ∈ l, c ≠ '_') (acc : List Char) :
    splitUGo acc l = [acc.reverse ++ l] := by
  have := splitUGo_no_sep l h acc []
  simp only [List.append_nil] at this
  rw [this]
  simp [splitUGo]

theorem natReprL_no_underscore (n : Nat) : ∀ c ∈ natReprL n, c ≠ '_' := by
  intro c hc he
  subst he
  exact absurd (natReprL_digits n _ hc).2 (by decide)

theorem pySplitU_expTechId (i : Nat) :
    pySplitU (expTechId i) = ["experience", natRepr i, "technologies"] := by
  unfold pySplitU expTechId
  have hdata : (("experience_" ++ natRepr i) ++ "_technologies").data =
      "experience".data ++ ('_' :: (natReprL i ++ ('_' :: "technologies".data))) := by
    rw [String.data_append, String.data_append]
    have h1 : ("experience_" : String).data = "experience".data ++ ['_'] := by decide
    have h2 : ("_technologies" : String).data = '_' :: "technologies".data := by decide
    rw [h1, h2]
    simp [natRepr, List.append_assoc]
  rw [hdata]
  rw [splitUGo_no_sep "experience".data (by decide) [] _]
  rw [List.append_nil, splitUGo_sep, List.reverse_reverse]
  rw [splitUGo_no_sep (natReprL i) (natReprL_no_underscore i) [] _]
  rw [List.append_nil, splitUGo_sep, List.reverse_reverse]
  rw [splitUGo_final "technologies".data (by decide) []]
  rfl

theorem leadsWith_append_self (p rest : List Char) : leadsWith p (p ++ rest) = true := by
  induction p with
  | nil => rfl
  | cons c cs ih => simp [leadsWith, ih]

theorem pyStartsWith_expTechId (i : Nat) :
    pyStartsWith "experience_" (expTechId i) = true := by
  unfold pyStartsWith expTechId
  rw [String.data_append, String.data_append, List.append_assoc]
  exact leadsWith_append_self _ _

theorem natRepr_length_pos (n : Nat) : 1 ≤ (natRepr n).length := by
  show 1 ≤ (natReprL n).length
  cases h : natReprL n with
  | nil => exact absurd h (natReprL_ne_nil n)
  | cons c cs => simp

theorem expTechId_length (i : Nat) :
    (expTechId i).length = 11 + (natRepr i).length + 13 := by
  unfold expTechId
  rw [String.length_append, String.length_append]
  have h1 : ("experience_" : String).length = 11 := by decide
  have h2 : ("_technologies" : String).length = 13 := by decide
  omega

theorem expTechId_ne_summary (i : Nat) : expTechId i ≠ "summary" := by
  intro h
  have hl := congrArg String.length h
  rw [expTechId_length] at hl
  have hp := natRepr_length_pos i
  have hs : ("summary" : String).length = 7 := by decide
  omega

theorem expTechId_ne_experiences (i : Nat) : expTechId i ≠ "experiences" := by
  intro h
  have hl := congrArg String.length h
  rw [expTechId_length] at hl
  have hp := natRepr_length_pos i
  have : ("experiences" : String).length = 11 := by decide
  omega

/-!
## C10 — evaluator blind spots
-/

theorem otherSectionId_length (nm : String) :
    (otherSectionId nm).length = 14 + nm.length := by
  unfold otherSectionId
  rw [String.length_append]
  have : ("other_section_" : String).length = 14 := by decide
  omega

theorem otherSectionId_not_exp (nm : String) :
    pyStartsWith "experience_" (otherSectionId nm) = false := by
  unfold pyStartsWith otherSectionId
  rw [String.data_append]
  have h1 : ("experience_" : String).data = 'e' :: "xperience_".data := by decide
  have h2 : ("other_section_" : String).data = 'o' :: "ther_section_".data := by decide
  rw [h1, h2, List.cons_append]
  simp [leadsWith]

/-- The evaluator has no change-detection branch for `certifications`,
`awards`, or any `other_section_{name}` identifier: they are never marked
edited. -/
theorem evalSection_dead (o e : Profile) (s : String)
    (h : s = "certifications" ∨ s = "awards" ∨ ∃ nm, s = otherSectionId nm) :
    evalSection o e s = none := by
  have hlen : ∀ nm : String, (otherSectionId nm).length = 14 + nm.length := otherSectionId_length
  rcases h with rfl | rfl | ⟨nm, rfl⟩
  · unfold evalSection
    rw [if_neg (by decide), if_neg (by decide),
        if_neg (by rw [show pyStartsWith "experience_" "certifications" = false by decide]; simp),
        if_neg (by decide), if_neg (by decide)]
  · unfold evalSection
    rw [if_neg (by decide), if_neg (by decide),
        if_neg (by rw [show pyStartsWith "experience_" "awards" = false by decide]; simp),
        if_neg (by decide), if_neg (by decide)]
  · have hne : ∀ t : String, t.length < 14 → otherSectionId nm ≠ t := by
      intro t ht he
      have := congrArg String.length he
      rw [otherSectionId_length] at this
      omega
    unfold evalSection
    rw [if_neg (hne "summary" (by decide)), if_neg (hne "experiences" (by decide)),
        if_neg (by rw [otherSectionId_not_exp nm]; simp),
        if_neg (hne "projects" (by decide)), if_neg (hne "skills" (by decide))]

/-- The `experience_{i}_technologies` identifier, by contrast, falls into
the `experience_` branch: it is marked edited exactly when some zipped
bullet of experience `i` changed; its technology list is never looked at. -/
theorem evalSection_expTechId (o e : Profile) (i : Nat) (oe ne : Experience)
    (ho : o.experiences.get? i = some oe) (he : e.experiences.get? i = some ne) :
    evalSection o e (expTechId i) =
      (if 0 < zipBulletChanges oe.bullets ne.bullets
       then some (expTechId i, (zipBulletChanges oe.bullets ne.bullets : Int)) else none) := by
  obtain ⟨hio, -⟩ := List.get?_eq_some.mp ho
  obtain ⟨hie, -⟩ := List.get?_eq_some.mp he
  have hidxo : pyIdx o.experiences.length ((i : Nat) : Int) = some i := by
    unfold pyIdx
    rw [if_pos (Int.natCast_nonneg i), if_pos (by exact_mod_cast hio)]
    simp
  have hidxe : pyIdx e.experiences.length ((i : Nat) : Int) = some i := by
    unfold pyIdx
    rw [if_pos (Int.natCast_nonneg i), if_pos (by exact_mod_cast hie)]
    simp
  unfold evalSection
  rw [if_neg (expTechId_ne_summary i), if_neg (expTechId_ne_experiences i),
      if_pos (by rw [pyStartsWith_expTechId])]
  rw [pySplitU_expTechId]
  simp only [List.get?_cons_succ, List.get?_cons_zero, Option.getD_some, pyInt_natRepr]
  rw [if_pos ⟨by exact_mod_cast hio, by exact_mod_cast hie⟩]
  rw [hidxo, hidxe]
  dsimp only
  rw [ho, he]

/-- Counterexample to claim C10 as stated: with the identified list
`["experience_0_technologies"]` and an edit that changed only a bullet
(never the technology list, which is identical), the evaluator marks the
unit edited, reports nothing missing, and the score is 1.0 — not < 1.0. -/
theorem c10_counterexample :
    (evaluateEditCompleteness o10 e10 ["experience_0_technologies"] none).completeness_score = 1 ∧
    (evaluateEditCompleteness o10 e10 ["experience_0_technologies"] none).missing_edits = [] ∧
    (o10.experiences.map (·.technologies)) = (e10.experiences.map (·.technologies)) := by
  with_unfolding_all decide

/-- C10 amended: `certifications`, `awards` and `other_section_{name}`
identifiers have no detection branch — whenever one appears in the
identified list it lands in `missing_edits` and caps the score strictly
below 1.0.  But `experience_{i}_technologies` identifiers fall into the
`experience_` branch: such a unit is marked edited iff some zipped bullet
of experience `i` changed, regardless of its technology lists. -/
theorem c10_blind_spots :
    (∀ (o e : Profile) (sections : List String) (jd : Option JobDescription) (s : String),
      s ∈ sections → (s = "certifications" ∨ s = "awards" ∨ ∃ nm, s = otherSectionId nm) →
        s ∈ (evaluateEditCompleteness o e sections jd).missing_edits ∧
        (evaluateEditCompleteness o e sections jd).completeness_score < 1)
    ∧ (∀ (o e : Profile) (i : Nat) (oe ne : Experience),
        o.experiences.get? i = some oe → e.experiences.get? i = some ne →
        ((evalSection o e (expTechId i)).isSome ↔ 0 < zipBulletChanges oe.bullets ne.bullets)) := by
  constructor
  · intro o e sections jd s hmem hdead
    obtain ⟨h1, h2, h3, h4⟩ := evaluate_spec o e sections jd
    have hnone := evalSection_dead o e s hdead
    constructor
    · rw [h3, List.mem_filter]
      exact ⟨hmem, by simp [hnone]⟩
    · rw [h4]
      have hlen : 0 < sections.length := List.length_pos_of_mem hmem
      rw [if_pos hlen]
      have hlt : sections.countP (fun t => (evalSection o e t).isSome) < sections.length := by
        rcases Nat.lt_or_ge (sections.countP (fun t => (evalSection o e t).isSome))
            sections.length with h | h
        · exact h
        · exfalso
          have heq : sections.countP (fun t => (evalSection o e t).isSome) = sections.length :=
            le_antisymm (List.countP_le_length _) h
          have := List.countP_eq_length.mp heq s hmem
          rw [hnone] at this
          simp at this
      have hlenq : (0 : ℚ) < (sections.length : ℚ) := by exact_mod_cast hlen
      rw [div_lt_one hlenq]
      exact_mod_cast hlt
  · intro o e i oe ne ho he
    rw [evalSection_expTechId o e i oe ne ho he]
    by_cases hch : 0 < zipBulletChanges oe.bullets ne.bullets <;> simp [hch]

/-- Witness for `c10_blind_spots` at a concrete input: with identified
list `["certifications"]` nothing is detected, the unit is missing and
the score is below 1; and the technologies identifier of `o10`/`e10`
(whose bullet 0 changed) is detected. -/
theorem c10_blind_spots_witness :
    ("certifications" ∈ (evaluateEditCompleteness o10 e10 ["certifications"] none).missing_edits ∧
      (evaluateEditCompleteness o10 e10 ["certifications"] none).completeness_score < 1) ∧
    ((evalSection o10 e10 (expTechId 0)).isSome ↔
      0 < zipBulletChanges exp10o.bullets exp10e.bullets) :=
  ⟨(c10_blind_spots.1 o10 e10 ["certifications"] none "certifications"
      (by decide) (Or.inl rfl)),
   (c10_blind_spots.2 o10 e10 0 exp10o exp10e (by decide) (by decide))⟩

/-!
## C7 — section enumeration
-/

theorem mem_if_cons {c : Prop} [Decidable c] (y : String) (L : List String) (s : String) :
    (s ∈ if c then y :: L else []) ↔ c ∧ (s = y ∨ s ∈ L) := by
  split <;> simp [*]

theorem mem_if_singleton {c : Prop} [Decidable c] (x s : String) :
    (s ∈ if c then [x] else []) ↔ c ∧ s = x := by
  split <;> simp [*]

theorem exists_get?_cons {α : Type} (x : α) (xs : List α) (Q : Nat → α → Prop) :
    (∃ i a, (x :: xs).get? i = some a ∧ Q i a) ↔
      Q 0 x ∨ ∃ i a, xs.get? i = some a ∧ Q (i + 1) a := by
  constructor
  · rintro ⟨i, a, hget, hq⟩
    cases i with
    | zero =>
      simp only [List.get?_cons_zero, Option.some.injEq] at hget
      subst hget
      exact Or.inl hq
    | succ n => exact Or.inr ⟨n, a, by simpa using hget, hq⟩
  · rintro (hq | ⟨i, a, hget, hq⟩)
    · exact ⟨0, x, rfl, hq⟩
    · exact ⟨i + 1, a, by simpa using hget, hq⟩

theorem mem_expSectionIds (s : String) :
    ∀ (k : Nat) (es : List Experience),
      s ∈ expSectionIds k es ↔ ∃ i e, es.get? i = some e ∧ expIdsAt (k + i) e s := by
  intro k es
  induction es generalizing k with
  | nil => simp [expSectionIds]
  | cons e0 es ih =>
    have hsplit := exists_get?_cons e0 es (fun i e => expIdsAt (k + i) e s)
    simp only [] at hsplit
    rw [hsplit]
    simp only [expSectionIds, List.mem_append, mem_if_cons, mem_if_singleton,
      List.mem_map, List.mem_range, ih (k + 1)]
    unfold expIdsAt
    have harith : ∀ i : Nat, k + 1 + i = k + (i + 1) := fun i => by omega
    simp [Nat.add_zero, harith, eq_comm]

theorem mem_projSectionIds (s : String) :
    ∀ (k : Nat) (ps : List Project),
      s ∈ projSectionIds k ps ↔ ∃ i pr, ps.get? i = some pr ∧ projIdsAt (k + i) pr s := by
  intro k ps
  induction ps generalizing k with
  | nil => simp [projSectionIds]
  | cons p0 ps ih =>
    have hsplit := exists_get?_cons p0 ps (fun i pr => projIdsAt (k + i) pr s)
    simp only [] at hsplit
    rw [hsplit]
    simp only [projSectionIds, List.mem_append, mem_if_cons,
      List.mem_map, List.mem_range, ih (k + 1)]
    unfold projIdsAt
    have harith : ∀ i : Nat, k + 1 + i = k + (i + 1) := fun i => by omega
    constructor
    · rintro (⟨hc, h⟩ | ⟨i, pr, hget, hP⟩)
      · rcases h with h | h
        · exact Or.inl ⟨hc, Or.inl h⟩
        · by_cases hb : p0.bullets ≠ []
          · rw [if_pos hb] at h
            simp only [List.mem_map, List.mem_range] at h
            obtain ⟨j, hj, hjeq⟩ := h
            exact Or.inl ⟨hc, Or.inr ⟨hb, j, hj, by simp [hjeq, Nat.add_zero]⟩⟩
          · rw [if_neg hb] at h
            simp at h
      · refine Or.inr ⟨i, pr, hget, ?_⟩
        rwa [harith i] at hP
    · rintro (⟨hc, h⟩ | ⟨i, pr, hget, hP⟩)
      · rcases h with h | ⟨hb, j, hj, hjeq⟩
        · exact Or.inl ⟨hc, Or.inl h⟩
        · refine Or.inl ⟨hc, Or.inr ?_⟩
          rw [if_pos hb]
          simp only [List.mem_map, List.mem_range]
          exact ⟨j, hj, by simp [hjeq, Nat.add_zero]⟩
      · refine Or.inr ⟨i, pr, hget, ?_⟩
        rwa [harith i]

/-- Counterexample to claim C7 as stated: on a profile with one
experience holding one bullet and no technologies, the claimed
enumeration contains a technology-list identifier that the code never
emits (the code keys technology identifiers on a non-empty technology
list, not on bullets), and the code emits the aggregate marker
`experiences`, which the claim's "and nothing else" excludes. -/
theorem c7_counterexample :
    (expTechId 0 ∈ claimedIdentify pc7 ∧ expTechId 0 ∉ identifySections pc7) ∧
    ("experiences" ∈ identifySections pc7 ∧ "experiences" ∉ claimedIdentify pc7) := by
  with_unfolding_all decide

/-- C7 amended: the enumeration contains exactly — the summary unit iff
the summary is truthy; if any experiences exist, the marker
`experiences`, and per experience with bullets a bullets marker plus one
identifier per bullet, and per experience with a non-empty technology
list (regardless of bullets!) a technology identifier; if any projects
exist, the marker `projects`, and per project with bullets or a
description a `project_{i}` marker (there is no description identifier)
plus one identifier per bullet; `skills`, `certifications` and `awards`
iff those lists are non-empty; and one identifier per other-section with
at least one item — and nothing else. -/
theorem c7_enumeration (p : Profile) (s : String) :
    s ∈ identifySections p ↔
      (pyTruthy p.summary ∧ s = "summary")
      ∨ (p.experiences ≠ [] ∧
          (s = "experiences" ∨ ∃ i e, p.experiences.get? i = some e ∧ expIdsAt i e s))
      ∨ (p.projects ≠ [] ∧
          (s = "projects" ∨ ∃ i pr, p.projects.get? i = some pr ∧ projIdsAt i pr s))
      ∨ (p.skills ≠ [] ∧ s = "skills")
      ∨ (p.certifications ≠ [] ∧ s = "certifications")
      ∨ (p.awards ≠ [] ∧ s = "awards")
      ∨ (∃ sec, sec ∈ p.other_sections ∧ sec.items ≠ [] ∧ s = otherSectionId sec.name) := by
  unfold identifySections
  simp only [List.mem_append, mem_if_cons, mem_if_singleton,
    mem_expSectionIds s 0 p.experiences, mem_projSectionIds s 0 p.projects,
    List.mem_map, List.mem_filter, Nat.zero_add, List.not_mem_nil, or_false,
    decide_eq_true_eq]
  constructor
  · rintro ((((((h | h) | h) | h) | h) | h) | h)
    · exact .inl h
    · exact .inr (.inl h)
    · exact .inr (.inr (.inl h))
    · exact .inr (.inr (.inr (.inl h)))
    · exact .inr (.inr (.inr (.inr (.inl h))))
    · exact .inr (.inr (.inr (.inr (.inr (.inl h)))))
    · obtain ⟨sec, hsec, hs⟩ := h
      exact .inr (.inr (.inr (.inr (.inr (.inr
        ⟨sec, hsec.1, hsec.2, hs.symm⟩)))))
  · rintro (h | h | h | h | h | h | h)
    · exact .inl (.inl (.inl (.inl (.inl (.inl h)))))
    · exact .inl (.inl (.inl (.inl (.inl (.inr h)))))
    · exact .inl (.inl (.inl (.inl (.inr h))))
    · exact .inl (.inl (.inl (.inr h)))
    · exact .inl (.inl (.inr h))
    · exact .inl (.inr h)
    · obtain ⟨sec, hsec, hitems, hs⟩ := h
      exact .inr ⟨sec, ⟨hsec, hitems⟩, hs.symm⟩

/-!
## C1 — monotonic structure
-/

theorem applyRewriteBullet_frame (p : Profile) (a : EditAction) (q : Profile)
    (h : applyRewriteBullet p a = some q) :
    structCounts q = structCounts p ∧ q.skills = p.skills := by
  unfold applyRewriteBullet at h
  dsimp only at h
  split at h
  · cases hei : pyInt (((pySplitU a.target).get? 1).getD "") with
    | none => rw [hei] at h; simp at h
    | some ei =>
      rw [hei] at h
      simp only [Option.bind_eq_bind, Option.some_bind] at h
      split at h
      · cases hri : pyIdx p.experiences.length ei with
        | none => rw [hri] at h; simp at h
        | some ri =>
          rw [hri] at h
          simp only [Option.bind_eq_bind, Option.some_bind] at h
          split at h
          · simp at h
          · rename_i exp hexp
            split at h
            · cases hbi : pyInt (((pySplitU a.target).get? 3).getD "") with
              | none => rw [hbi] at h; simp at h
              | some bi =>
                rw [hbi] at h
                simp only [Option.bind_eq_bind, Option.some_bind] at h
                split at h
                · cases hrbi : pyIdx exp.bullets.length bi with
                  | none => rw [hrbi] at h; simp at h
                  | some rbi =>
                    rw [hrbi] at h
                    simp only [Option.bind_eq_bind, Option.some_bind, Option.pure_def, Option.some.injEq] at h
                    subst h
                    refine ⟨?_, rfl⟩
                    unfold structCounts
                    simp
                · simp only [Option.pure_def, Option.some.injEq] at h
                  subst h; exact ⟨rfl, rfl⟩
            · simp only [Option.pure_def, Option.some.injEq] at h
              subst h; exact ⟨rfl, rfl⟩
      · simp only [Option.pure_def, Option.some.injEq] at h
        subst h; exact ⟨rfl, rfl⟩
  · simp only [Option.pure_def, Option.some.injEq] at h
    subst h; exact ⟨rfl, rfl⟩

theorem applyAction_frame (p : Profile) (a : EditAction) :
    structCounts (applyAction p a) = structCounts p ∧ (applyAction p a).skills = p.skills := by
  unfold applyAction
  split
  · cases happ : applyRewriteBullet p a with
    | none => simp [happ]
    | some q => simpa [happ] using applyRewriteBullet_frame p a q happ
  · unfold applyAddKeyword
    cases hpe : p.experiences with
    | nil => exact ⟨rfl, rfl⟩
    | cons e es =>
      refine ⟨?_, rfl⟩
      unfold structCounts
      simp [hpe]
  · exact ⟨rfl, rfl⟩

theorem foldActions_frame (acts : List EditAction) : ∀ p : Profile,
    structCounts (acts.foldl applyAction p) = structCounts p ∧
    (acts.foldl applyAction p).skills = p.skills := by
  induction acts with
  | nil => intro p; exact ⟨rfl, rfl⟩
  | cons a as ih =>
    intro p
    simp only [List.foldl_cons]
    obtain ⟨h1, h2⟩ := ih (applyAction p a)
    obtain ⟨g1, g2⟩ := applyAction_frame p a
    exact ⟨h1.trans g1, h2.trans g2⟩

theorem stageSummary_frame (g : Gen) (jd : Option JobDescription)
    (company role : Option String) (e : Profile) :
    structCounts (stageSummary g jd company role e) = structCounts e ∧
    (stageSummary g jd company role e).skills = e.skills := by
  unfold stageSummary
  repeat' first
    | exact ⟨rfl, rfl⟩
    | split
    | dsimp only

theorem incorporateJdKeywords_frame (g : Gen) (jd : JobDescription)
    (kta : List String) (e : Profile) :
    structCounts (incorporateJdKeywords g jd kta e) = structCounts e ∧
    (incorporateJdKeywords g jd kta e).skills = addMissingSkills jd e.skills := by
  unfold incorporateJdKeywords structCounts
  simp

theorem incorporateCompanyRoleEdits_frame (g : Gen) (company role : Option String)
    (e : Profile) :
    structCounts (incorporateCompanyRoleEdits g company role e) = structCounts e ∧
    (incorporateCompanyRoleEdits g company role e).skills = e.skills := by
  unfold incorporateCompanyRoleEdits structCounts
  simp

theorem improveBulletsGenerally_frame (g : Gen) (e : Profile) :
    structCounts (improveBulletsGenerally g e) = structCounts e ∧
    (improveBulletsGenerally g e).skills = e.skills := by
  unfold improveBulletsGenerally structCounts
  simp

theorem stageKeywords_counts (g : Gen) (plan : EditPlan) (jd : Option JobDescription)
    (company role : Option String) (e : Profile) :
    structCounts (stageKeywords g plan jd company role e) = structCounts e := by
  unfold stageKeywords
  rcases jd with _ | j
  · dsimp only
    split
    · exact (incorporateCompanyRoleEdits_frame g company role e).1
    · exact (improveBulletsGenerally_frame g e).1
  · exact (incorporateJdKeywords_frame g j plan.keywords_to_add e).1

theorem stageProjects_frame (g : Gen) (jd : Option JobDescription) (e : Profile) :
    structCounts (stageProjects g jd e) = structCounts e ∧
    (stageProjects g jd e).skills = e.skills := by
  unfold stageProjects structCounts
  simp

theorem stageSkills_counts (jd : Option JobDescription) (e : Profile) :
    structCounts (stageSkills jd e) = structCounts e := by
  unfold stageSkills
  repeat' split
  all_goals rfl

theorem stageOther_frame (g : Gen) (jd : Option JobDescription) (e : Profile) :
    structCounts (stageOther g jd e) = structCounts e ∧
    (stageOther g jd e).skills = e.skills := by
  unfold stageOther structCounts
  cases jd <;> simp

theorem applyEditsBody_counts (g : Gen) (plan : EditPlan) (jd : Option JobDescription)
    (company role : Option String) (e : Profile) :
    structCounts (applyEditsBody g plan jd company role e) = structCounts e := by
  unfold applyEditsBody
  rw [(stageOther_frame g jd _).1, stageSkills_counts, (stageProjects_frame g jd _).1,
      stageKeywords_counts, (stageSummary_frame g jd company role _).1,
      (foldActions_frame plan.actions e).1]

/-- Claim C1: the edit-apply operation (and hence `customize`) never
shrinks any top-level sequence — experiences, projects, education,
certifications, awards and other sections all keep at least their
original counts (in fact the counts are preserved exactly). -/
theorem c1_monotonic_structure (g : Gen) (p : Profile) (plan : EditPlan)
    (jd : Option JobDescription) (company role : Option String) :
    (p.experiences.length ≤ (applyEdits g p plan jd company role).experiences.length ∧
     p.projects.length ≤ (applyEdits g p plan jd company role).projects.length ∧
     p.education.length ≤ (applyEdits g p plan jd company role).education.length ∧
     p.certifications.length ≤ (applyEdits g p plan jd company role).certifications.length ∧
     p.awards.length ≤ (applyEdits g p plan jd company role).awards.length ∧
     p.other_sections.length ≤ (applyEdits g p plan jd company role).other_sections.length) ∧
    (p.experiences.length ≤ (processAgent g p jd company role).1.experiences.length ∧
     p.projects.length ≤ (processAgent g p jd company role).1.projects.length ∧
     p.education.length ≤ (processAgent g p jd company role).1.education.length ∧
     p.certifications.length ≤ (processAgent g p jd company role).1.certifications.length ∧
     p.awards.length ≤ (processAgent g p jd company role).1.awards.length ∧
     p.other_sections.length ≤ (processAgent g p jd company role).1.other_sections.length) := by
  have key : ∀ plan2 : EditPlan,
      structCounts (applyEdits g p plan2 jd company role) = structCounts p := by
    intro plan2
    exact applyEditsBody_counts g plan2 jd company role p
  have h1 := key plan
  have h2 := key ((g.planOut).getD failedPlan)
  unfold structCounts at h1 h2
  simp only [Prod.mk.injEq] at h1 h2
  obtain ⟨a1, a2, a3, a4, a5, a6⟩ := h1
  obtain ⟨b1, b2, b3, b4, b5, b6⟩ := h2
  constructor
  · exact ⟨le_of_eq a1.symm, le_of_eq a2.symm, le_of_eq a3.symm,
      le_of_eq a4.symm, le_of_eq a5.symm, le_of_eq a6.symm⟩
  · exact ⟨le_of_eq b1.symm, le_of_eq b2.symm, le_of_eq b3.symm,
      le_of_eq b4.symm, le_of_eq b5.symm, le_of_eq b6.symm⟩

/-- Witness instantiation for `c4_score_bounds`. -/
theorem c4_score_bounds_witness :
    0 ≤ (evaluateEditCompleteness o4 e4 ["summary"] none).completeness_score ∧
    (evaluateEditCompleteness o4 e4 ["summary"] none).completeness_score ≤ 1 :=
  ⟨(c4_score_bounds o4 e4 ["summary"] none).1, (c4_score_bounds o4 e4 ["summary"] none).2.1⟩

/-!
## C8 — skills growth cap
-/

theorem addMissingSkills_eq (jd : JobDescription) (skills : List Skill) :
    addMissingSkills jd skills =
      skills ++ ((missingSkillNames jd skills).take 10).map mkSkillNamed := by
  unfold addMissingSkills
  dsimp only
  split
  · rfl
  · rename_i hmiss
    rw [not_not] at hmiss
    simp [hmiss]

theorem addMissingSkills_length (jd : JobDescription) (skills : List Skill) :
    (addMissingSkills jd skills).length ≤ skills.length + 10 := by
  rw [addMissingSkills_eq, List.length_append, List.length_map]
  have := List.length_take_le 10 (missingSkillNames jd skills)
  omega

theorem missingSkillNames_spec (jd : JobDescription) (skills : List Skill) :
    ∀ nm ∈ missingSkillNames jd skills,
      nm ∈ (jd.required_skills ++ jd.preferred_skills).map (·.skill) ∧
      pyLower nm ∉ skills.map (fun sk => pyLower sk.name) := by
  intro nm hm
  unfold missingSkillNames at hm
  simp only [List.mem_map, List.mem_filter, decide_eq_true_eq] at hm
  obtain ⟨sr, ⟨hsr, hnotin⟩, rfl⟩ := hm
  constructor
  · exact List.mem_map.mpr ⟨sr, hsr, rfl⟩
  · simpa using hnotin

theorem stageSkills_skills (j : JobDescription) (e : Profile) :
    (stageSkills (some j) e).skills =
      (if e.skills ≠ [] then addMissingSkills j e.skills else e.skills) := by
  unfold stageSkills updateSkillsSection
  split
  · rfl
  · rfl

theorem stageKeywords_some_skills (g : Gen) (plan : EditPlan) (j : JobDescription)
    (company role : Option String) (e : Profile) :
    (stageKeywords g plan (some j) company role e).skills = addMissingSkills j e.skills :=
  (incorporateJdKeywords_frame g j plan.keywords_to_add e).2

theorem applyEdits_skills (g : Gen) (p : Profile) (plan : EditPlan) (jd : JobDescription)
    (company role : Option String) :
    (applyEdits g p plan (some jd) company role).skills =
      (if addMissingSkills jd p.skills ≠ []
       then addMissingSkills jd (addMissingSkills jd p.skills)
       else addMissingSkills jd p.skills) := by
  show (applyEditsBody g plan (some jd) company role p).skills = _
  unfold applyEditsBody
  rw [(stageOther_frame g (some jd) _).2, stageSkills_skills jd _,
      (stageProjects_frame g (some jd) _).2, stageKeywords_some_skills,
      (stageSummary_frame g (some jd) company role _).2, (foldActions_frame plan.actions p).2]

/-- Counterexample to claim C8 as stated: with 11 missing required skills
and one existing skill, one `_apply_edits` pass appends 11 new entries —
10 in `_incorporate_jd_keywords_extensive` and 1 more in
`_update_skills_section`, which recomputes the missing set — exceeding
the claimed total cap of 10. -/
theorem c8_counterexample :
    (applyEdits failGen p8 failedPlan (some jd8) none none).skills.length
      = p8.skills.length + 11 := by
  with_unfolding_all decide

/-- C8 amended: during one forced pass with a Requirement present there
are two appending sites, each capped at 10 — the skills block of
`_incorporate_jd_keywords_extensive` and then `_update_skills_section`
(which runs because the skills list is non-empty after the first block,
and appends skills still missing after it) — so the final skills list is
the original plus up to 10 missing-at-start skills plus up to 10
missing-after-that skills: up to 20 new entries in total, each of them a
JD required/preferred skill name absent case-insensitively from the list
at its own site. -/
theorem c8_skills_growth (g : Gen) (p : Profile) (plan : EditPlan) (jd : JobDescription)
    (company role : Option String) :
    (applyEdits g p plan (some jd) company role).skills =
      (if addMissingSkills jd p.skills ≠ []
       then addMissingSkills jd (addMissingSkills jd p.skills)
       else addMissingSkills jd p.skills) ∧
    (applyEdits g p plan (some jd) company role).skills.length ≤ p.skills.length + 20 ∧
    (∀ skills : List Skill, addMissingSkills jd skills =
        skills ++ ((missingSkillNames jd skills).take 10).map mkSkillNamed) ∧
    (∀ (skills : List Skill) (nm : String), nm ∈ missingSkillNames jd skills →
       nm ∈ (jd.required_skills ++ jd.preferred_skills).map (·.skill) ∧
       pyLower nm ∉ skills.map (fun sk => pyLower sk.name)) := by
  refine ⟨applyEdits_skills g p plan jd company role, ?_,
    fun skills => addMissingSkills_eq jd skills,
    fun skills nm hm => missingSkillNames_spec jd skills nm hm⟩
  rw [applyEdits_skills g p plan jd company role]
  split
  · have h1 := addMissingSkills_length jd p.skills
    have h2 := addMissingSkills_length jd (addMissingSkills jd p.skills)
    omega
  · have h1 := addMissingSkills_length jd p.skills
    omega

/-- Witness instantiation for `c8_skills_growth`. -/
theorem c8_skills_growth_witness :
    (applyEdits failGen p8 failedPlan (some jd8) none none).skills.length
      ≤ p8.skills.length + 20 :=
  (c8_skills_growth failGen p8 failedPlan jd8 none none).2.1

/-!
## C2 — fully-failing generation backend
-/

theorem map_self {α : Type} (l : List α) (f : α → α) (h : ∀ a, f a = a) : l.map f = l := by
  induction l with
  | nil => rfl
  | cons x xs ih => simp [h, ih]

theorem rewriteBulletForRole_fail (b : String) (role : Option String) (kw : List String) :
    rewriteBulletForRole failGen b role kw = none := by
  unfold rewriteBulletForRole
  split <;> rfl

theorem improveBulletGenerally_fail (b : String) :
    improveBulletGenerally failGen b = none := rfl

theorem rewriteSummaryForRole_fail (s : String) (company role : Option String) :
    rewriteSummaryForRole failGen s company role = s := rfl

theorem stageSummary_fail_none (company role : Option String) (e : Profile) :
    stageSummary failGen none company role e = e := by
  unfold stageSummary
  split
  · dsimp only
    split
    · rw [rewriteSummaryForRole_fail]
      split
      · rename_i hcond
        exact absurd rfl hcond.2
      · rfl
    · rfl
  · rfl

theorem incorporateCompanyRoleEdits_fail (company role : Option String) (e : Profile) :
    incorporateCompanyRoleEdits failGen company role e = e := by
  unfold incorporateCompanyRoleEdits
  dsimp only
  rw [map_self _ _ (fun exp => ?_), map_self _ _ (fun pr => ?_)]
  · rw [map_self _ _ (fun b => ?_)]
    rw [rewriteBulletForRole_fail]
  · rw [map_self _ _ (fun b => ?_)]
    rw [rewriteBulletForRole_fail]

theorem improveBulletsGenerally_fail (e : Profile) :
    improveBulletsGenerally failGen e = e := by
  unfold improveBulletsGenerally
  rw [map_self _ _ (fun exp => ?_)]
  rw [map_self _ _ (fun b => ?_)]
  rw [improveBulletGenerally_fail]

theorem stageKeywords_fail_none (plan : EditPlan) (company role : Option String)
    (e : Profile) : stageKeywords failGen plan none company role e = e := by
  unfold stageKeywords
  dsimp only
  split
  · exact incorporateCompanyRoleEdits_fail company role e
  · exact improveBulletsGenerally_fail e

theorem step3Project_fail_none (pr : Project) : step3Project failGen none pr = pr := by
  unfold step3Project
  dsimp only
  rw [map_self _ _ (fun b => ?_)]
  · split <;> rfl
  · rw [improveBulletGenerally_fail]

theorem stageProjects_fail_none (e : Profile) : stageProjects failGen none e = e := by
  unfold stageProjects
  rw [map_self _ _ step3Project_fail_none]

theorem stageSkills_none (e : Profile) : stageSkills none e = e := by
  unfold stageSkills
  split <;> rfl

theorem stageOther_none (g : Gen) (e : Profile) : stageOther g none e = e := rfl

theorem applyEdits_fail_none (p : Profile) (company role : Option String) :
    applyEdits failGen p failedPlan none company role = p := by
  show applyEditsBody failGen failedPlan none company role p = p
  unfold applyEditsBody
  rw [stageOther_none, stageSkills_none, stageProjects_fail_none, stageKeywords_fail_none,
      stageSummary_fail_none]
  rfl

theorem zip_self_filter_ne (l : List String) :
    (l.zip l).filter (fun x => x.1 ≠ x.2) = [] := by
  induction l with
  | nil => rfl
  | cons a t ih => simpa [List.zip_cons_cons, List.filter_cons] using ih

theorem zipBulletChanges_self (l : List String) : zipBulletChanges l l = 0 := by
  unfold zipBulletChanges
  split
  · rw [zip_self_filter_ne]
    rfl
  · rfl

theorem sum_zip_self_zero {α : Type} (f : α → α → Nat) (hf : ∀ a, f a a = 0) (l : List α) :
    ((l.zip l).map (fun x => f x.1 x.2)).sum = 0 := by
  induction l with
  | nil => rfl
  | cons a t ih => simp [List.zip_cons_cons, hf, ih]

theorem evalSection_self (p : Profile) (s : String) : evalSection p p s = none := by
  unfold evalSection
  by_cases h1 : s = "summary"
  · simp [h1]
  rw [if_neg h1]
  by_cases h2 : s = "experiences"
  · rw [if_pos h2]
    have hz := sum_zip_self_zero (fun a b : Experience => zipBulletChanges a.bullets b.bullets)
      (fun a => zipBulletChanges_self a.bullets) p.experiences
    dsimp only
    rw [hz]
    rfl
  rw [if_neg h2]
  by_cases h3 : pyStartsWith "experience_" s = true
  · rw [if_pos h3]
    cases hint : pyInt (((pySplitU s).get? 1).getD "") with
    | none => rfl
    | some ei =>
      dsimp only
      split
      · cases hidx : pyIdx p.experiences.length ei with
        | none => rfl
        | some oi =>
          dsimp only
          cases hget : p.experiences.get? oi with
          | none => rfl
          | some oe =>
            dsimp only
            rw [zipBulletChanges_self]
            rfl
      · rfl
  rw [if_neg h3]
  by_cases h4 : s = "projects"
  · rw [if_pos h4]
    have hz := sum_zip_self_zero
      (fun a b : Project => zipBulletChanges a.bullets b.bullets
        + (if a.description ≠ b.description then 1 else 0))
      (fun a => by simp [zipBulletChanges_self]) p.projects
    dsimp only
    rw [hz]
    rfl
  rw [if_neg h4]
  by_cases h5 : s = "skills"
  · simp [h5]
  rw [if_neg h5]

theorem evaluate_self_score (p : Profile) (sections : List String)
    (jd : Option JobDescription) :
    (evaluateEditCompleteness p p sections jd).completeness_score = 0 := by
  obtain ⟨-, -, -, h4⟩ := evaluate_spec p p sections jd
  rw [h4]
  have hz : sections.countP (fun s => (evalSection p p s).isSome) = 0 := by
    rw [List.countP_eq_zero]
    intro s hs
    simp [evalSection_self]
  rw [hz]
  split <;> simp

/-- Counterexample to claim C2 as stated: with the fully-failing backend
but a Requirement holding one required skill missing from the profile,
`customize` still appends that skill (that append makes no generation
call), so the edited profile is NOT structurally identical to the
original and the completeness score is 1, not 0. -/
theorem c2_counterexample :
    (processAgent failGen p2 (some jd2) none none).1.skills.length ≠ p2.skills.length ∧
    (processAgent failGen p2 (some jd2) none none).2.completeness_score ≠ 0 := by
  with_unfolding_all decide

/-- C2 amended: when every generation call raises, `customize` returns
success with no exception propagating; when additionally no Requirement
is present, the edited profile is exactly the original in every field and
the completeness score is 0.0.  (With a Requirement present, skill and
technology appends happen without any generation call, so the profile can
still grow — see the counterexample.) -/
theorem c2_failing_backend (p : Profile) (company role : Option String) :
    customizeResume failGen p none company role =
      { edited_profile := some p, success := true, error := none } ∧
    (processAgent failGen p none company role).1 = p ∧
    (processAgent failGen p none company role).2.completeness_score = 0 := by
  have hedit : (processAgent failGen p none company role).1 = p := by
    show applyEdits failGen p ((failGen.planOut).getD failedPlan) none company role = p
    exact applyEdits_fail_none p company role
  refine ⟨?_, hedit, ?_⟩
  · unfold customizeResume
    rw [hedit]
  · show (evaluateEditCompleteness p
      (applyEdits failGen p ((failGen.planOut).getD failedPlan) none company role)
      (identifySections p) none).completeness_score = 0
    rw [show applyEdits failGen p ((failGen.planOut).getD failedPlan) none company role = p
      from applyEdits_fail_none p company role]
    exact evaluate_self_score p (identifySections p) none

/-!
## C9 — the original profile is never mutated
-/

/-- Claim C9: `_apply_edits` operates on a deep copy.  In the aliasing
view (`applyEditsState` threads the caller's Profile object alongside the
working copy, and every mutation of the translated source targets the
working copy), the caller's object after the call is exactly the input,
and the returned profile is the edited working copy. -/
theorem c9_original_unchanged (g : Gen) (p : Profile) (plan : EditPlan)
    (jd : Option JobDescription) (company role : Option String) :
    (applyEditsState g p plan jd company role).1 = p ∧
    (applyEditsState g p plan jd company role).2 =
      applyEditsBody g plan jd company role p ∧
    applyEdits g p plan jd company role = (applyEditsState g p plan jd company role).2 :=
  ⟨rfl, rfl, rfl⟩


/-! ## C6: idempotence of the technology normalizer

The only normalization-map value whose lowercase form is not itself a map
key is "Express.js"; re-normalizing it goes through the fuzzy matcher.
The fuzzy fold over the 100-entry table is evaluated in segments: the
state is unchanged on entries 0-43, improves at "express" and again at
"expressjs", and is unchanged on entries 46-99. -/

/-- The table splits at the two "express" entries. -/
theorem normMap_drop44 : normalizationMap.drop 44 =
    (pstr "express", pstr "Express.js") :: (pstr "expressjs", pstr "Express.js")
      :: normalizationMap.drop 46 := by decide

/-- On the first 44 table entries the fuzzy state for input
"express.js" never changes. -/
theorem fuzzy_take44_fixed : (normalizationMap.take 44).all (fun kv =>
    fuzzyStep (pstr "express.js") (none, 0, 1) kv
      == ((none : Option (List Nat × List Nat)), 0, 1)) = true := by decide

/-- The entry "express" scores 28/34 against "express.js" and becomes
the running best. -/
theorem fuzzyStep_express :
    fuzzyStep (pstr "express.js") (none, 0, 1) (pstr "express", pstr "Express.js")
      = (some (pstr "express", pstr "Express.js"), 14, 17) := by decide

/-- The entry "expressjs" scores 36/38 and replaces "express". -/
theorem fuzzyStep_expressjs :
    fuzzyStep (pstr "express.js") (some (pstr "express", pstr "Express.js"), 14, 17)
      (pstr "expressjs", pstr "Express.js")
      = (some (pstr "expressjs", pstr "Express.js"), 18, 19) := by decide

/-- No entry after "expressjs" improves on its score. -/
theorem fuzzy_drop46_fixed : (normalizationMap.drop 46).all (fun kv =>
    fuzzyStep (pstr "express.js") (some (pstr "expressjs", pstr "Express.js"), 18, 19) kv
      == (some (pstr "expressjs", pstr "Express.js"), 18, 19)) = true := by decide

/-- A fold whose step fixes the start state over the whole list returns
the start state. -/
theorem foldl_fixed {α β : Type} (f : β → α → β) (s : β) (l : List α)
    (h : ∀ x ∈ l, f s x = s) : List.foldl f s l = s := by
  induction l with
  | nil => rfl
  | cons y ys ih =>
    rw [List.foldl_cons, h y (List.mem_cons_self y ys)]
    exact ih (fun x hx => h x (List.mem_cons_of_mem y hx))

/-- The fuzzy matcher resolves "express.js" to the "expressjs" entry. -/
theorem fuzzy_expressjs :
    fuzzyMatch (pstr "express.js") = some (pstr "expressjs", pstr "Express.js") := by
  have hsplit : normalizationMap = normalizationMap.take 44 ++ normalizationMap.drop 44 :=
    (List.take_append_drop 44 normalizationMap).symm
  have hA : ∀ kv ∈ normalizationMap.take 44,
      fuzzyStep (pstr "express.js") (none, 0, 1) kv
        = ((none : Option (List Nat × List Nat)), 0, 1) := by
    intro kv hkv
    exact eq_of_beq (List.all_eq_true.mp fuzzy_take44_fixed kv hkv)
  have hB : ∀ kv ∈ normalizationMap.drop 46,
      fuzzyStep (pstr "express.js") (some (pstr "expressjs", pstr "Express.js"), 18, 19) kv
        = (some (pstr "expressjs", pstr "Express.js"), 18, 19) := by
    intro kv hkv
    exact eq_of_beq (List.all_eq_true.mp fuzzy_drop46_fixed kv hkv)
  unfold fuzzyMatch
  rw [hsplit, List.foldl_append, foldl_fixed _ _ _ hA, normMap_drop44,
    List.foldl_cons, fuzzyStep_express, List.foldl_cons, fuzzyStep_expressjs,
    foldl_fixed _ _ _ hB]

/-- Every map value other than "Express.js" re-normalizes to itself by
direct dictionary lookup. -/
theorem normMap_value_direct : normalizationMap.all (fun kv =>
    kv.2 == pstr "Express.js" || (normalize kv.2).1 == kv.2) = true := by decide

/-- Dropping a left segment: the remainder of `dropWhile` is reached by
discarding some leading block. -/
theorem dropWhile_decomp {α : Type} (p : α → Bool) (l : List α) :
    ∃ t, l = t ++ l.dropWhile p := by
  induction l with
  | nil => exact ⟨[], rfl⟩
  | cons y ys ih =>
    by_cases hy : p y
    · rcases ih with ⟨t, ht⟩
      exact ⟨y :: t, by simp [List.dropWhile_cons, hy, ← ht]⟩
    · exact ⟨[], by simp [List.dropWhile_cons, hy]⟩

/-- The head surviving `dropWhile` fails the predicate. -/
theorem head_dropWhile {α : Type} (p : α → Bool) (l : List α) (c : α)
    (h : (l.dropWhile p).head? = some c) : p c = false := by
  induction l with
  | nil => simp [List.dropWhile] at h
  | cons y ys ih =>
    rw [List.dropWhile_cons] at h
    by_cases hy : p y
    · exact ih (by simpa [hy] using h)
    · simp only [hy, if_neg] at h
      simp only [Bool.false_eq_true, if_false, List.head?_cons, Option.some.injEq] at h
      subst h
      exact Bool.not_eq_true _ ▸ (by simpa using hy)

/-- A list whose head fails the predicate is untouched by `dropWhile`. -/
theorem dropWhile_eq_self_of {α : Type} (p : α → Bool) (l : List α)
    (h : ∀ c, l.head? = some c → p c = false) : l.dropWhile p = l := by
  cases l with
  | nil => rfl
  | cons y ys =>
    have := h y (by simp)
    simp [List.dropWhile_cons, this]

/-- The head of a stripped string is not whitespace. -/
theorem stripN_head (l : List Nat) (c : Nat) (h : (stripN l).head? = some c) :
    wsN c = false := by
  unfold stripN at h
  rcases dropWhile_decomp wsN (l.dropWhile wsN).reverse with ⟨t, ht⟩
  have hpre : l.dropWhile wsN
      = ((l.dropWhile wsN).reverse.dropWhile wsN).reverse ++ t.reverse := by
    conv_lhs => rw [← List.reverse_reverse (l.dropWhile wsN), ht]
    rw [List.reverse_append]
  rcases hz : ((l.dropWhile wsN).reverse.dropWhile wsN).reverse with _ | ⟨a, as⟩
  · rw [hz] at h; simp at h
  · rw [hz] at h
    simp only [List.head?_cons, Option.some.injEq] at h
    rw [hz] at hpre
    have hhead : (l.dropWhile wsN).head? = some a := by
      rw [hpre]; simp
    have := head_dropWhile wsN l a hhead
    rwa [h] at this

/-- The last character of a stripped string is not whitespace. -/
theorem stripN_last (l : List Nat) (c : Nat) (h : (stripN l).getLast? = some c) :
    wsN c = false := by
  unfold stripN at h
  rw [List.getLast?_reverse] at h
  exact head_dropWhile wsN (l.dropWhile wsN).reverse c h

/-- Stripping fixes any string with no whitespace at either edge. -/
theorem stripN_eq_self (l : List Nat)
    (h1 : ∀ c, l.head? = some c → wsN c = false)
    (h2 : ∀ c, l.getLast? = some c → wsN c = false) : stripN l = l := by
  unfold stripN
  rw [dropWhile_eq_self_of wsN l h1]
  rw [dropWhile_eq_self_of wsN l.reverse
    (fun c hc => h2 c (by rwa [List.head?_reverse] at hc))]
  exact List.reverse_reverse l

/-- `str.strip` is idempotent. -/
theorem stripN_idem (l : List Nat) : stripN (stripN l) = stripN l :=
  stripN_eq_self (stripN l) (stripN_head l) (stripN_last l)

/-- Cased code points lie in the two ASCII letter ranges. -/
theorem alphaN_ranges (c : Nat) (hc : alphaN c = true) :
    (65 ≤ c ∧ c ≤ 90) ∨ (97 ≤ c ∧ c ≤ 122) := by
  simpa [alphaN] using hc

/-- Letters are not whitespace. -/
theorem wsN_false_of_alpha (c : Nat) (hc : alphaN c = true) : wsN c = false := by
  have hr := alphaN_ranges c hc
  simp only [wsN]
  apply decide_eq_false
  omega

/-- Lowercasing a letter never yields whitespace. -/
theorem wsN_lowNat_alpha (c : Nat) (hc : alphaN c = true) : wsN (lowNat c) = false := by
  have hr := alphaN_ranges c hc
  simp only [wsN, lowNat]
  apply decide_eq_false
  split_ifs <;> omega

/-- Uppercasing a letter never yields whitespace. -/
theorem wsN_upNat_alpha (c : Nat) (hc : alphaN c = true) : wsN (upNat c) = false := by
  have hr := alphaN_ranges c hc
  simp only [wsN, upNat]
  apply decide_eq_false
  split_ifs <;> omega

/-- The per-character transform of `str.title` preserves whitespace
status. -/
theorem ws_titleChar (b : Bool) (c : Nat) :
    wsN (if alphaN c then (if b then lowNat c else upNat c) else c) = wsN c := by
  by_cases hc : alphaN c = true
  · rw [if_pos hc, wsN_false_of_alpha c hc]
    cases b
    · simp only [Bool.false_eq_true, if_false, wsN_upNat_alpha c hc]
    · simp only [if_true, wsN_lowNat_alpha c hc]
  · rw [if_neg hc]

/-- `str.title` preserves the whitespace mask of a string. -/
theorem map_wsN_titleGo (b : Bool) (l : List Nat) :
    (titleGo b l).map wsN = l.map wsN := by
  induction l generalizing b with
  | nil => rfl
  | cons c cs ih =>
    simp only [titleGo, List.map_cons, ws_titleChar, ih]

/-- Lowercasing absorbs the per-character transform of `str.title`. -/
theorem low_titleChar (b : Bool) (c : Nat) :
    lowNat (if alphaN c then (if b then lowNat c else upNat c) else c) = lowNat c := by
  by_cases hc : alphaN c = true
  · have hr := alphaN_ranges c hc
    rw [if_pos hc]
    cases b <;> simp only [Bool.false_eq_true, if_false, if_true, lowNat, upNat] <;>
      split_ifs <;> omega
  · rw [if_neg hc]

/-- `x.title().lower() == x.lower()`. -/
theorem lowerN_titleGo (b : Bool) (l : List Nat) :
    lowerN (titleGo b l) = lowerN l := by
  induction l generalizing b with
  | nil => rfl
  | cons c cs ih =>
    simp only [titleGo, lowerN, List.map_cons] at *
    rw [low_titleChar, ih]

/-- Uppercasing a cased character yields an uppercase letter. -/
theorem upper_upNat (c : Nat) (hc : alphaN c = true) : upperAlphaN (upNat c) = true := by
  have hr := alphaN_ranges c hc
  simp only [upNat, upperAlphaN]
  split_ifs <;> (apply decide_eq_true) <;> omega

/-- Title-casing a string with a cased character produces an uppercase
letter, so the all-lowercase check fails. -/
theorem titleGo_not_islower (l : List Nat) (h : l.any alphaN = true) :
    (titleGo false l).all (fun c => !upperAlphaN c) = false := by
  induction l with
  | nil => simp at h
  | cons c cs ih =>
    by_cases hc : alphaN c = true
    · simp [titleGo, hc, upper_upNat c hc]
    · simp only [List.any_cons, hc, Bool.false_or] at h
      simp only [titleGo, hc, Bool.false_eq_true, if_false, List.all_cons, ih h,
        Bool.and_false]

/-- `x.title().islower()` is false whenever `x.islower()` is true. -/
theorem islowerN_titleN_false (l : List Nat) (h : islowerN l = true) :
    islowerN (titleN l) = false := by
  unfold islowerN at h ⊢
  simp only [Bool.and_eq_true] at h
  rw [titleN, titleGo_not_islower l h.1, Bool.and_false]

/-- Whitespace status of the head survives `str.title`. -/
theorem titleN_head_ws (A : List Nat) (c : Nat) (h : (titleN A).head? = some c) :
    ∃ a, A.head? = some a ∧ wsN a = wsN c := by
  have hm : ((titleN A).map wsN).head? = some (wsN c) := by
    rw [List.head?_map, h]; rfl
  rw [titleN, map_wsN_titleGo, List.head?_map] at hm
  rcases Option.map_eq_some'.mp hm with ⟨a, ha, hwa⟩
  exact ⟨a, ha, hwa⟩

/-- Whitespace status of the last character survives `str.title`. -/
theorem titleN_last_ws (A : List Nat) (c : Nat) (h : (titleN A).getLast? = some c) :
    ∃ a, A.getLast? = some a ∧ wsN a = wsN c := by
  have hm : ((titleN A).map wsN).getLast? = some (wsN c) := by
    rw [List.getLast?_map, h]; rfl
  rw [titleN, map_wsN_titleGo, List.getLast?_map] at hm
  rcases Option.map_eq_some'.mp hm with ⟨a, ha, hwa⟩
  exact ⟨a, ha, hwa⟩

/-- Any entry the fuzzy fold reports comes from the table (or was
already in the start state). -/
theorem foldl_fuzzyStep_mem (q : List Nat) (l : List (List Nat × List Nat))
    (s : Option (List Nat × List Nat) × Nat × Nat) (kv : List Nat × List Nat)
    (h : (List.foldl (fuzzyStep q) s l).1 = some kv) : s.1 = some kv ∨ kv ∈ l := by
  induction l generalizing s with
  | nil => exact Or.inl h
  | cons y ys ih =>
    rw [List.foldl_cons] at h
    rcases ih (fuzzyStep q s y) h with hs | hmem
    · unfold fuzzyStep at hs
      dsimp only at hs
      split at hs
      · simp only [Option.some.injEq] at hs
        exact Or.inr (hs ▸ List.mem_cons_self y ys)
      · exact Or.inl hs
    · exact Or.inr (List.mem_cons_of_mem y hmem)

/-- A fuzzy-match hit is an entry of the normalization map. -/
theorem fuzzyMatch_mem (q : List Nat) (kv : List Nat × List Nat)
    (h : fuzzyMatch q = some kv) : kv ∈ normalizationMap := by
  unfold fuzzyMatch at h
  rcases foldl_fuzzyStep_mem q normalizationMap (none, 0, 1) kv h with hs | hmem
  · exact absurd hs (by simp)
  · exact hmem

/-- A dictionary hit is the value of an entry of the normalization
map. -/
theorem dictFind_mem (k v : List Nat) (h : dictFind k = some v) :
    ∃ kv, kv ∈ normalizationMap ∧ kv.2 = v := by
  unfold dictFind at h
  rcases Option.map_eq_some'.mp h with ⟨kv, hf, hv⟩
  exact ⟨kv, List.mem_of_find?_eq_some hf, hv⟩

/-- `normalize` through the dictionary branch. -/
theorem normalize_eq_of_dict (x v : List Nat) (hx : ¬ x = [])
    (hdf : dictFind (lowerN (stripN x)) = some v) : (normalize x).1 = v := by
  unfold normalize
  rw [if_neg hx]
  dsimp only
  rw [hdf]

/-- `normalize` through the fuzzy branch. -/
theorem normalize_eq_of_fuzzy (x : List Nat) (kv : List Nat × List Nat) (hx : ¬ x = [])
    (hdf : dictFind (lowerN (stripN x)) = none)
    (hfm : fuzzyMatch (lowerN (stripN x)) = some kv) : (normalize x).1 = kv.2 := by
  unfold normalize
  rw [if_neg hx]
  dsimp only
  rw [hdf, hfm]

/-- `normalize` through the title-case fallback branch. -/
theorem normalize_eq_of_miss (x : List Nat) (hx : ¬ x = [])
    (hdf : dictFind (lowerN (stripN x)) = none)
    (hfm : fuzzyMatch (lowerN (stripN x)) = none) :
    (normalize x).1 = if islowerN (stripN x) then titleN (stripN x) else stripN x := by
  unfold normalize
  rw [if_neg hx]
  dsimp only
  rw [hdf, hfm]

/-- "Express.js" re-normalizes to itself, via the fuzzy matcher. -/
theorem normalize_expressjs : (normalize (pstr "Express.js")).1 = pstr "Express.js" := by
  have h2 : lowerN (stripN (pstr "Express.js")) = pstr "express.js" := by decide
  have hdf : dictFind (lowerN (stripN (pstr "Express.js"))) = none := by
    rw [h2]; decide
  have hfm : fuzzyMatch (lowerN (stripN (pstr "Express.js")))
      = some (pstr "expressjs", pstr "Express.js") := by
    rw [h2]; exact fuzzy_expressjs
  rw [normalize_eq_of_fuzzy (pstr "Express.js") _ (by decide) hdf hfm]

/-- Every value of the normalization map is a fixed point of
`normalize`. -/
theorem normalize_val (kv : List Nat × List Nat) (hkv : kv ∈ normalizationMap) :
    (normalize kv.2).1 = kv.2 := by
  by_cases he : kv.2 = pstr "Express.js"
  · rw [he]; exact normalize_expressjs
  · have h := List.all_eq_true.mp normMap_value_direct kv hkv
    simp only [Bool.or_eq_true, beq_iff_eq] at h
    rcases h with h | h
    · exact absurd h he
    · exact h

/-- C6: the technology normalizer is idempotent — for every input (as a
sequence of code points), normalizing the name component of
`normalize x` returns that name unchanged:
`normalize(normalize(x)[0])[0] == normalize(x)[0]`. -/
theorem c6_normalize_idempotent (x : List Nat) :
    (normalize (normalize x).1).1 = (normalize x).1 := by
  by_cases hx : x = []
  · subst hx; rfl
  · rcases hdf : dictFind (lowerN (stripN x)) with _ | v
    · rcases hfm : fuzzyMatch (lowerN (stripN x)) with _ | kv
      · have hx1 := normalize_eq_of_miss x hx hdf hfm
        rw [hx1]
        by_cases hlow : islowerN (stripN x) = true
        · rw [if_pos hlow]
          by_cases hrnil : titleN (stripN x) = []
          · rw [hrnil]; rfl
          · have hstrip : stripN (titleN (stripN x)) = titleN (stripN x) := by
              apply stripN_eq_self
              · intro c hc
                rcases titleN_head_ws (stripN x) c hc with ⟨a, ha, hwa⟩
                rw [← hwa]
                exact stripN_head x a ha
              · intro c hc
                rcases titleN_last_ws (stripN x) c hc with ⟨a, ha, hwa⟩
                rw [← hwa]
                exact stripN_last x a ha
            have hlower : lowerN (titleN (stripN x)) = lowerN (stripN x) :=
              lowerN_titleGo false (stripN x)
            have hisl : islowerN (titleN (stripN x)) = false :=
              islowerN_titleN_false (stripN x) hlow
            have hd2 : dictFind (lowerN (stripN (titleN (stripN x)))) = none := by
              rw [hstrip, hlower]; exact hdf
            have hf2 : fuzzyMatch (lowerN (stripN (titleN (stripN x)))) = none := by
              rw [hstrip, hlower]; exact hfm
            rw [normalize_eq_of_miss (titleN (stripN x)) hrnil hd2 hf2, hstrip, hisl]
            simp
        · rw [if_neg hlow]
          by_cases hrnil : stripN x = []
          · rw [hrnil]; rfl
          · have hstrip : stripN (stripN x) = stripN x := stripN_idem x
            have hd2 : dictFind (lowerN (stripN (stripN x))) = none := by
              rw [hstrip]; exact hdf
            have hf2 : fuzzyMatch (lowerN (stripN (stripN x))) = none := by
              rw [hstrip]; exact hfm
            rw [normalize_eq_of_miss (stripN x) hrnil hd2 hf2, hstrip, if_neg hlow]
      · have hx1 := normalize_eq_of_fuzzy x kv hx hdf hfm
        rw [hx1]
        exact normalize_val kv (fuzzyMatch_mem _ kv hfm)
    · have hx1 := normalize_eq_of_dict x v hx hdf
      rw [hx1]
      rcases dictFind_mem _ v hdf with ⟨kv, hmem, hv⟩
      rw [← hv]
      exact normalize_val kv hmem

end Job360
